import Mathlib

/-! # golang-mastodon-home-counts

A shallow embedding of `src/golang-mastodon-home-counts/main.go`: the helper
`sortByCountDescending` and the body of `main` (the configuration of lines
35-52, the pagination loop of lines 66-103, the totals of lines 105-114 and
the combined tally of lines 132-139), followed by the properties proved about
them.

Conventions of the embedding.

* Go `int` counters are embedded as `Int`.  A counter only grows by one per
  processed post, so the 64-bit range is out of reach of the loop.  The
  `time.Duration` product of line 48, which a setting can drive out of the
  64-bit range, is embedded with its wrap-around (`wrapInt64`).
* `time.Time` values are embedded as `Int` instants (nanoseconds on one common
  time line); `t.Before(u)` is `t < u`.
* A Go `map[string]int` is embedded as the list of its entries, with pairwise
  distinct keys.  The list order stands for the order in which a `range` over
  the map yields the entries; Go leaves that order unspecified, and every
  statement below is quantified over all maps, hence over all such orders.
* The endless `for` of `main` is embedded with a fuel counter that bounds the
  number of loop iterations; running out of fuel is a result of its own.
-/

namespace MastodonHomeCounts

/-! ## Data model -/

/-- The `countEntry` struct of lines 16-19. -/
structure countEntry where
  Acct : String
  Count : Int
deriving DecidableEq, Repr

/-- The fields of `mastodon.Account` that `main` reads. -/
structure Account where
  Acct : String
deriving DecidableEq, Repr

/-- The fields of `mastodon.Status` that `main` reads.  `Reblog` is the
`*Status` pointer of the library: `none` is `nil`. -/
inductive Status where
  | mk (ID : String) (CreatedAt : Int) (Account : Account) (Reblog : Option Status)

namespace Status

/-- Field `ID` of a status. -/
def ID : Status → String
  | mk i _ _ _ => i

/-- Field `CreatedAt` of a status. -/
def CreatedAt : Status → Int
  | mk _ t _ _ => t

/-- Field `Account` of a status. -/
def Account : Status → MastodonHomeCounts.Account
  | mk _ _ a _ => a

/-- Field `Reblog` of a status. -/
def Reblog : Status → Option Status
  | mk _ _ _ r => r

end Status

/-- The `mastodon.Pagination` struct; the zero value of an ID is `""`. -/
structure Pagination where
  MaxID : String
  SinceID : String
  MinID : String
  Limit : Int
deriving DecidableEq, Repr

/-- A `map[string]int`: its entries in one iteration order, keys distinct. -/
structure GoMap where
  entries : List (String × Int)
  nodup : (entries.map Prod.fst).Nodup

namespace GoMap

/-- The map built by `make(map[string]int)`. -/
def empty : GoMap := ⟨[], List.nodup_nil⟩

/-- The two-valued read `v, ok := m[k]`: `none` when `k` is not a key. -/
def lookup (m : GoMap) (k : String) : Option Int := m.entries.lookup k

/-- The read `m[k]`: the zero value `0` when `k` is not a key. -/
def get (m : GoMap) (k : String) : Int :=
  match m.lookup k with
  | some v => v
  | none => 0

/-- The keys of the map, in iteration order. -/
def keys (m : GoMap) : List String := m.entries.map Prod.fst

/-- The assignment `m[k] = v`: the entry of `k` is replaced or created.  The
entry is listed first; where an entry stands in the iteration order carries no
meaning, see the conventions above. -/
def set (m : GoMap) (k : String) (v : Int) : GoMap :=
  ⟨(k, v) :: m.entries.filter (fun e => !decide (e.1 = k)), by
    rw [List.map_cons, List.nodup_cons]
    refine ⟨?_, ?_⟩
    · intro h
      obtain ⟨e, he, hk⟩ := List.mem_map.1 h
      have h2 := (List.mem_filter.1 he).2
      simp at h2
      exact h2 hk
    · exact (List.filter_sublist m.entries).map Prod.fst |>.nodup m.nodup⟩

/-- The statement `m[k]++`. -/
def incr (m : GoMap) (k : String) : GoMap := m.set k (m.get k + 1)

/-- The statement `m[k] += c`. -/
def add (m : GoMap) (k : String) (c : Int) : GoMap := m.set k (m.get k + c)

/-- The loop `for _, count := range m { total += count }` started at `0`. -/
def total (m : GoMap) : Int := m.entries.foldl (fun acc e => acc + e.2) 0

end GoMap

/-! ## `sortByCountDescending` (lines 21-32) -/

/-- The comparison closure of lines 28-30, on the entries themselves. -/
def less (a b : countEntry) : Bool := decide (a.Count > b.Count)

/-- Inner loop of an insertion sort written with `Less` and `Swap`: the new
element `x` stands right after the already sorted part, given here last
element first, and is swapped towards the front while `lt x` holds against
its left neighbour. -/
def sinkLeft {α : Type} (lt : α → α → Bool) (x : α) : List α → List α
  | [] => [x]
  | p :: rp => if lt x p then p :: sinkLeft lt x rp else x :: p :: rp

/-- The library call `sort.Slice(s, less)`, embedded as the insertion sort
that the Go runtime runs on short slices: the elements are taken left to
right and each one is sunk into the sorted part before it. -/
def sortSlice {α : Type} (lt : α → α → Bool) (s : List α) : List α :=
  (s.foldl (fun rp x => sinkLeft lt x rp) []).reverse

/-- The loop of lines 23-27: the entries with `v > 1`, appended in iteration
order. -/
def collect (m : GoMap) : List countEntry :=
  m.entries.foldl
    (fun sorted e => if e.2 > 1 then sorted ++ [countEntry.mk e.1 e.2] else sorted) []

/-- The function `sortByCountDescending`. -/
def sortByCountDescending (m : GoMap) : List countEntry :=
  sortSlice less (collect m)

/-! ## The body of `main` -/

/-- Lines 88-94: one post that passed the cutoff test is counted, in the boost
map under the handle of the reblogged post's author when `Reblog` is set, in
the toot map under the handle of its own author otherwise.  The pair is
`(tootCount, boostCount)`. -/
def classify (status : Status) (tootCount boostCount : GoMap) : GoMap × GoMap :=
  match status.Reblog with
  | some reblog => (tootCount, boostCount.incr reblog.Account.Acct)
  | none => (tootCount.incr status.Account.Acct, boostCount)

/-- The variables of `main` that live across iterations of the loop of lines
66-103.  The last two fields are ghost state, absent from the source:
`requests` records the `Pagination` values handed to `GetTimelineHome` so far,
and `forwarded` the posts that reached lines 88-94, both oldest first. -/
structure Walker where
  tootCount : GoMap
  boostCount : GoMap
  maxID : String
  pageNum : Nat
  requests : List Pagination
  forwarded : List Status

/-- The home timeline behind `client.GetTimelineHome`: the answer to a request,
given how many requests were answered before it (a server may answer the same
request differently over time).  `Except.error` is a non-nil `err`. -/
abbrev TimelineSource := Nat → Pagination → Except String (List Status)

/-- The constant `limit` of line 63. -/
def limit : Int := 40

/-- The state at line 66, before the first iteration (lines 59-64). -/
def Walker.init : Walker :=
  { tootCount := GoMap.empty, boostCount := GoMap.empty, maxID := "", pageNum := 1,
    requests := [], forwarded := [] }

/-- Lines 82-95: the scan of one page.  The flag is the variable `stop`. -/
def scanPage (cutoff : Int) : List Status → Walker → Walker × Bool
  | [], w => (w, false)
  | status :: rest, w =>
    if status.CreatedAt < cutoff then (w, true)
    else
      let tb := classify status w.tootCount w.boostCount
      scanPage cutoff rest
        { w with tootCount := tb.1, boostCount := tb.2, forwarded := w.forwarded ++ [status] }

/-- How one iteration of the loop of lines 66-103 ends. -/
inductive Step where
  /-- The end of the body is reached: the loop goes round again. -/
  | next (w : Walker)
  /-- A `break` of line 79 or line 98: `main` goes on at line 105. -/
  | leave (w : Walker)
  /-- The `log.Fatalf` of line 76: the process exits with status 1. -/
  | fatal (w : Walker) (err : String)

/-- One iteration of the loop of lines 66-103. -/
def iteration (src : TimelineSource) (cutoff : Int) (w : Walker) : Step :=
  let pg : Pagination := { MaxID := w.maxID, SinceID := "", MinID := "", Limit := limit }
  let w1 := { w with requests := w.requests ++ [pg] }
  match src w.requests.length pg with
  | .error err => .fatal w1 err
  | .ok [] => .leave w1
  | .ok (s :: rest) =>
    let r := scanPage cutoff (s :: rest) w1
    if r.2 then .leave r.1
    else .next { r.1 with maxID := ((s :: rest).getLast (List.cons_ne_nil s rest)).ID,
                          pageNum := r.1.pageNum + 1 }

/-- How the loop of lines 66-103 stands after a bounded number of iterations. -/
inductive Outcome where
  /-- The loop was left by a `break`, in this state. -/
  | finished (w : Walker)
  /-- The process was ended by line 76. -/
  | fatal (w : Walker) (err : String)
  /-- The loop is still going round after all the iterations allowed. -/
  | running (w : Walker)

/-- The loop of lines 66-103, run for at most `fuel` iterations. -/
def walk (src : TimelineSource) (cutoff : Int) : Nat → Walker → Outcome
  | 0, w => .running w
  | fuel + 1, w =>
    match iteration src cutoff w with
    | .next w1 => walk src cutoff fuel w1
    | .leave w1 => .finished w1
    | .fatal w1 err => .fatal w1 err

/-- Lines 132-139: the combined map built from the two tallies. -/
def combine (tootCount boostCount : GoMap) : GoMap :=
  boostCount.entries.foldl (fun c e => c.add e.1 e.2)
    (tootCount.entries.foldl (fun c e => c.add e.1 e.2) GoMap.empty)

/-- What lines 105-144 print, as data: the three totals and the three ranked
lists, in the order of printing. -/
structure Report where
  totalToots : Int
  totalBoosts : Int
  totalCombined : Int
  topToots : List countEntry
  topBoosts : List countEntry
  topCombined : List countEntry

/-- Lines 105-144 on the final tallies. -/
def report (tootCount boostCount : GoMap) : Report :=
  let totalToots := tootCount.total
  let totalBoosts := boostCount.total
  { totalToots := totalToots,
    totalBoosts := totalBoosts,
    totalCombined := totalToots + totalBoosts,
    topToots := sortByCountDescending tootCount,
    topBoosts := sortByCountDescending boostCount,
    topCombined := sortByCountDescending (combine tootCount boostCount) }

/-- The posts of a list counted one after the other by lines 88-94. -/
def classifyAll (posts : List Status) (tootCount boostCount : GoMap) : GoMap × GoMap :=
  posts.foldl (fun tb status => classify status tb.1 tb.2) (tootCount, boostCount)

/-- The state of the variables of `main` in an outcome of the loop. -/
def Outcome.state : Outcome → Walker
  | .finished w => w
  | .fatal w _ => w
  | .running w => w

/-- The request that an iteration started in state `w` sends (lines 69-72). -/
def Walker.request (w : Walker) : Pagination :=
  { MaxID := w.maxID, SinceID := "", MinID := "", Limit := limit }

/-- A post that line 84 lets through: it is not `Before` the cutoff. -/
def fresh (cutoff : Int) (status : Status) : Bool := !decide (status.CreatedAt < cutoff)

/-- A post without `Reblog` whose own author has handle `h`. -/
def isTootBy (h : String) (status : Status) : Bool :=
  match status.Reblog with
  | none => decide (status.Account.Acct = h)
  | some _ => false

/-- A post with `Reblog` set whose reblogged post's author has handle `h`. -/
def isBoostOf (h : String) (status : Status) : Bool :=
  match status.Reblog with
  | some reblog => decide (reblog.Account.Acct = h)
  | none => false

/-- The posts that the scan of lines 83-95 counts when request number `kp.1`,
carrying `kp.2`, is answered: the posts of the page up to the first one that
line 84 stops at, and none when the request fails. -/
def freshPart (src : TimelineSource) (cutoff : Int) (kp : Nat × Pagination) : List Status :=
  match src kp.1 kp.2 with
  | .ok page => page.takeWhile (fresh cutoff)
  | .error _ => []

/-- The state in which the scan of lines 82-95 leaves the variables when the
request of state `w` was answered by `page`. -/
def Walker.afterPage (cutoff : Int) (w : Walker) (page : List Status) : Walker :=
  { tootCount := (classifyAll (page.takeWhile (fresh cutoff)) w.tootCount w.boostCount).1,
    boostCount := (classifyAll (page.takeWhile (fresh cutoff)) w.tootCount w.boostCount).2,
    maxID := w.maxID,
    pageNum := w.pageNum,
    requests := w.requests ++ [w.request],
    forwarded := w.forwarded ++ page.takeWhile (fresh cutoff) }

/-- The state of the variables of `main` at the end of an iteration. -/
def Step.state : Step → Walker
  | .next w => w
  | .leave w => w
  | .fatal w _ => w

/-- What holds of the variables of `main` at every point of the loop: every
counted post passed line 84, the two maps are what counting those posts from
empty maps gives, and the counted posts are, request by request, the posts of
the answered page that come before the first one that line 84 stops at. -/
def Walker.Inv (src : TimelineSource) (cutoff : Int) (w : Walker) : Prop :=
  (∀ s ∈ w.forwarded, cutoff ≤ s.CreatedAt)
  ∧ (w.tootCount, w.boostCount) = classifyAll w.forwarded GoMap.empty GoMap.empty
  ∧ w.forwarded = w.requests.enum.flatMap (freshPart src cutoff)

/-- No page answered so far held a post before the cutoff. -/
def Walker.Clean (src : TimelineSource) (cutoff : Int) (w : Walker) : Prop :=
  ∀ (k : Nat) (pg : Pagination) (page : List Status),
    w.requests[k]? = some pg → src k pg = .ok page → ∀ s ∈ page, cutoff ≤ s.CreatedAt

/-- Sample posts: an original post by `A`, a reblog by `B` of a post by `A`,
and an original post by `C` that is older than the others. -/
def samplePostA : Status := .mk "109" 100 ⟨"A"⟩ none

/-- See `samplePostA`. -/
def samplePostB : Status := .mk "108" 100 ⟨"B"⟩ (some (.mk "031" 40 ⟨"A"⟩ none))

/-- See `samplePostA`. -/
def samplePostC : Status := .mk "107" 70 ⟨"C"⟩ none

/-- A sample page, newest post first. -/
def samplePage : List Status := [samplePostA, samplePostB, samplePostA, samplePostC]

/-- A sample timeline that answers every request with `samplePage`. -/
def sampleSource : TimelineSource := fun _ _ => .ok samplePage

/-- A sample timeline of several pages: the first page holds two posts after
the cutoff 76, the second a post before that cutoff between two posts after
it, and every later page one post after it. -/
def sampleTimeline : TimelineSource := fun k _ =>
  if k = 0 then .ok [samplePostA, samplePostB]
  else if k = 1 then .ok [samplePostB, samplePostC, samplePostA]
  else .ok [samplePostA]

/-! ## Configuration and the whole of `main` (lines 35-57 and 105-144) -/

/-- The value of a decimal digit, `none` for any other character. -/
def digitVal (c : Char) : Option Nat :=
  if 48 ≤ c.toNat ∧ c.toNat ≤ 57 then some (c.toNat - 48) else none

/-- The number written by a list of decimal digits read after `acc`, `none`
when a character is not a digit. -/
def parseDigits : List Char → Nat → Option Nat
  | [], acc => some acc
  | c :: cs, acc =>
    match digitVal c with
    | some d => parseDigits cs (acc * 10 + d)
    | none => none

/-- The library function `strconv.Atoi` on a 64-bit platform: an optional sign
followed by at least one decimal digit and nothing else, the value lying in
the range of `int`; a syntax error or a range error otherwise. -/
def Atoi (s : String) : Except String Int :=
  let body : Bool × List Char :=
    match s.data with
    | '-' :: cs => (true, cs)
    | '+' :: cs => (false, cs)
    | cs => (false, cs)
  match body.2 with
  | [] => .error "invalid syntax"
  | c :: cs =>
    match parseDigits (c :: cs) 0 with
    | none => .error "invalid syntax"
    | some n =>
      let v : Int := if body.1 then -(n : Int) else (n : Int)
      if -(2 : Int) ^ 63 ≤ v ∧ v ≤ (2 : Int) ^ 63 - 1 then .ok v else .error "value out of range"

/-- The value that 64-bit two's complement arithmetic keeps of an integer. -/
def wrapInt64 (x : Int) : Int := (x + 2 ^ 63) % 2 ^ 64 - 2 ^ 63

/-- The constant `time.Hour`, a `time.Duration`: nanoseconds in an hour. -/
def Hour : Int := 3600000000000

/-- The expression `-time.Duration(cutoffHours) * time.Hour` of line 48, an
`int64` number of nanoseconds: the negation and the product both wrap. -/
def cutoffOffset (cutoffHours : Int) : Int :=
  wrapInt64 (wrapInt64 (-(wrapInt64 cutoffHours)) * Hour)

/-- What `main` reads from its surroundings in lines 35-43: whether
`godotenv.Load` returned an error, and the three environment variables as
`os.Getenv` returns them (`""` when unset). -/
structure Env where
  loadFailed : Bool
  MASTODON_SERVER : String
  MASTODON_ACCESS_TOKEN : String
  MASTODON_CUTOFF_HOURS : String

/-- The `log.Fatal` calls of `main`, each of which ends the process with
exit status 1. -/
inductive Failure where
  /-- Line 37: the `.env` file could not be loaded. -/
  | envFile
  /-- Line 46: `MASTODON_CUTOFF_HOURS` is not a number above 0. -/
  | cutoffHours (value : String)
  /-- Line 51: the server or the access token is empty. -/
  | credentials
  /-- Line 76: `GetTimelineHome` returned an error. -/
  | fetch (err : String)

/-- The failures of lines 37, 46 and 51, which come before the loop. -/
def Failure.isConfig : Failure → Bool
  | .fetch _ => false
  | _ => true

/-- Lines 35-52 of `main`, with `now` the value of `time.Now()` at line 48:
the first failure met, or the pair of `cutoffHours` and `cutoff`. -/
def configure (env : Env) (now : Int) : Except Failure (Int × Int) :=
  if env.loadFailed then .error .envFile
  else
    match Atoi env.MASTODON_CUTOFF_HOURS with
    | .error _ => .error (.cutoffHours env.MASTODON_CUTOFF_HOURS)
    | .ok cutoffHours =>
      if cutoffHours ≤ 0 then .error (.cutoffHours env.MASTODON_CUTOFF_HOURS)
      else
        let cutoff := now + cutoffOffset cutoffHours
        if env.MASTODON_SERVER = "" ∨ env.MASTODON_ACCESS_TOKEN = "" then .error .credentials
        else .ok (cutoffHours, cutoff)

/-- How a run of `main` stands after a bounded number of loop iterations.  In
each case `requests` are the requests sent to the timeline, oldest first. -/
inductive RunResult where
  /-- The run reached line 144: the report was printed and `main` returned. -/
  | reported (r : Report) (requests : List Pagination)
  /-- The run was ended by a `log.Fatal`; nothing of lines 105-144 was run. -/
  | failed (f : Failure) (requests : List Pagination)
  /-- The loop is still going round after all the iterations allowed. -/
  | running (w : Walker)

/-- The function `main`, with the loop run for at most `fuel` iterations. -/
def main (env : Env) (now : Int) (src : TimelineSource) (fuel : Nat) : RunResult :=
  match configure env now with
  | .error f => .failed f []
  | .ok (_, cutoff) =>
    match walk src cutoff fuel Walker.init with
    | .finished w => .reported (report w.tootCount w.boostCount) w.requests
    | .fatal w err => .failed (.fetch err) w.requests
    | .running w => .running w

/-- The report that a run printed, `none` when it printed none. -/
def RunResult.report? : RunResult → Option Report
  | .reported r _ => some r
  | .failed _ _ => none
  | .running _ => none

/-- The requests that a run sent to the timeline. -/
def RunResult.requests : RunResult → List Pagination
  | .reported _ requests => requests
  | .failed _ requests => requests
  | .running w => w.requests

/-- An answer of the timeline after which the loop does not go round again: a
failure, an empty page, or a page holding a post before the cutoff. -/
def stops (cutoff : Int) : Except String (List Status) → Bool
  | .error _ => true
  | .ok page => page.isEmpty || page.any (fun s => !fresh cutoff s)

/-- A sample timeline that answers the first request with a page of two posts
after the cutoff 76 and fails on every later request. -/
def sampleFailing : TimelineSource := fun k _ =>
  if k = 0 then .ok [samplePostA, samplePostB] else .error "503"

/-- A sample timeline that answers by the cursor it is sent: a page of one post
created at instant 100 to a request without `MaxID`, an empty page to any
other request. -/
def sampleByCursor : TimelineSource := fun _ pg =>
  if pg.MaxID = "" then .ok [samplePostA] else .ok []

/-- A sample timeline without end: every request is answered by a page of one
post created at instant 100. -/
def sampleEndless : TimelineSource := fun _ _ => .ok [samplePostA]

/-- The page of the scenario of the specification, for a run started at instant
`now`: a post by `A`, a reblog by `B` of a post by `A`, a second post by `A`,
all created at `now`, and a post by `C` created 30 hours before. -/
def scenarioPage (now : Int) : List Status :=
  [ .mk "4" now ⟨"A"⟩ none,
    .mk "3" now ⟨"B"⟩ (some (.mk "0" now ⟨"A"⟩ none)),
    .mk "2" now ⟨"A"⟩ none,
    .mk "1" (now - 30 * Hour) ⟨"C"⟩ none ]

/-- A sample toot map with counts 2 and 5. -/
def sampleToots : GoMap := ⟨[("A", 2), ("B", 5)], by decide⟩

/-- A sample boost map with one count of 1. -/
def sampleBoosts : GoMap := ⟨[("A", 1)], by decide⟩

/-- A sample environment with a valid configuration and a cutoff of 24 hours. -/
def sampleEnv : Env :=
  { loadFailed := false, MASTODON_SERVER := "https://example.social",
    MASTODON_ACCESS_TOKEN := "token", MASTODON_CUTOFF_HOURS := "24" }

/-! ## Maps -/

namespace GoMap

theorem lookup_filter_ne (k h : String) (hk : h ≠ k) (es : List (String × Int)) :
    (es.filter (fun e => !decide (e.1 = k))).lookup h = es.lookup h := by
  induction es with
  | nil => rfl
  | cons e es ih =>
    obtain ⟨a, b⟩ := e
    by_cases hak : a = k
    · subst hak
      have hne : (h == a) = false := by simpa using hk
      simp [List.filter_cons, List.lookup_cons, hne, ih]
    · by_cases hha : h = a
      · subst hha
        simp [List.filter_cons, List.lookup_cons, hak]
      · have hne : (h == a) = false := by simpa using hha
        simp [List.filter_cons, List.lookup_cons, hak, hne, ih]

theorem lookup_set (m : GoMap) (k : String) (v : Int) (h : String) :
    (m.set k v).lookup h = if h = k then some v else m.lookup h := by
  unfold lookup set
  by_cases hk : h = k
  · subst hk
    simp [List.lookup_cons]
  · have hne : (h == k) = false := by simpa using hk
    simp only [List.lookup_cons, hne, if_neg hk]
    exact lookup_filter_ne k h hk m.entries

theorem get_set (m : GoMap) (k : String) (v : Int) (h : String) :
    (m.set k v).get h = if h = k then v else m.get h := by
  unfold get
  rw [lookup_set]
  by_cases hk : h = k <;> simp [hk]

theorem lookup_empty (h : String) : empty.lookup h = none := rfl

theorem get_empty (h : String) : empty.get h = 0 := rfl

theorem lookup_incr (m : GoMap) (k h : String) :
    (m.incr k).lookup h = if h = k then some (m.get k + 1) else m.lookup h :=
  lookup_set m k _ h

theorem get_incr (m : GoMap) (k h : String) :
    (m.incr k).get h = if h = k then m.get k + 1 else m.get h :=
  get_set m k _ h

theorem foldl_add_eq (es : List (String × Int)) (a : Int) :
    es.foldl (fun acc e => acc + e.2) a = a + (es.map Prod.snd).sum := by
  induction es generalizing a with
  | nil => simp
  | cons e es ih => simp [List.foldl_cons, ih, add_assoc]

theorem total_eq_sum (m : GoMap) : m.total = (m.entries.map Prod.snd).sum := by
  unfold total
  rw [foldl_add_eq]
  simp

theorem filter_ne_of_not_mem (k : String) (es : List (String × Int))
    (hk : k ∉ es.map Prod.fst) : es.filter (fun e => !decide (e.1 = k)) = es := by
  rw [List.filter_eq_self]
  intro e he
  have : e.1 ≠ k := fun h => hk (h ▸ List.mem_map_of_mem Prod.fst he)
  simpa using this

theorem lookup_none_of_not_mem (k : String) (es : List (String × Int))
    (hk : k ∉ es.map Prod.fst) : es.lookup k = none := by
  induction es with
  | nil => rfl
  | cons e es ih =>
    obtain ⟨a, b⟩ := e
    simp only [List.map_cons, List.mem_cons, not_or] at hk
    have hne : (k == a) = false := by simpa using hk.1
    simp [List.lookup_cons, hne, ih hk.2]

theorem sum_split (k : String) (es : List (String × Int)) (hnd : (es.map Prod.fst).Nodup) :
    (es.map Prod.snd).sum
      = (match es.lookup k with | some v => v | none => 0)
        + ((es.filter (fun e => !decide (e.1 = k))).map Prod.snd).sum := by
  induction es with
  | nil => simp
  | cons e es ih =>
    obtain ⟨a, b⟩ := e
    rw [List.map_cons, List.nodup_cons] at hnd
    by_cases hak : a = k
    · subst hak
      have hf := filter_ne_of_not_mem a es hnd.1
      simp [List.filter_cons, List.lookup_cons, hf]
    · have hne : (k == a) = false := by simpa using (Ne.symm hak)
      have := ih hnd.2
      simp only [List.filter_cons, List.lookup_cons, hne, List.map_cons, List.sum_cons, hak,
        decide_False, Bool.not_false, if_true]
      rw [this]
      ring

theorem total_set (m : GoMap) (k : String) (v : Int) :
    (m.set k v).total = m.total - m.get k + v := by
  rw [total_eq_sum, total_eq_sum, sum_split k m.entries m.nodup]
  unfold get lookup set
  simp only [List.map_cons, List.sum_cons]
  ring

theorem total_incr (m : GoMap) (k : String) : (m.incr k).total = m.total + 1 := by
  unfold incr
  rw [total_set]
  ring

theorem total_empty : empty.total = 0 := rfl

theorem mem_keys_set (m : GoMap) (k : String) (v : Int) (h : String) :
    h ∈ (m.set k v).keys ↔ h = k ∨ h ∈ m.keys := by
  unfold keys set
  simp only [List.map_cons, List.mem_cons, List.mem_map, List.mem_filter]
  constructor
  · rintro (h1 | ⟨e, ⟨he, _⟩, rfl⟩)
    · exact Or.inl h1
    · exact Or.inr ⟨e, he, rfl⟩
  · rintro (h1 | ⟨e, he, rfl⟩)
    · exact Or.inl h1
    · by_cases hk : e.1 = k
      · exact Or.inl hk
      · exact Or.inr ⟨e, ⟨he, by simpa using hk⟩, rfl⟩

theorem mem_keys_iff_lookup (m : GoMap) (h : String) :
    h ∈ m.keys ↔ m.lookup h ≠ none := by
  unfold keys lookup
  induction m.entries with
  | nil => simp
  | cons e es ih =>
    obtain ⟨a, b⟩ := e
    by_cases hha : h = a
    · subst hha
      simp [List.lookup_cons]
    · have hne : (h == a) = false := by simpa using hha
      simp [List.lookup_cons, hne, hha, ih]

end GoMap

/-! ## Counting posts (lines 88-94) -/

theorem classifyAll_nil (t b : GoMap) : classifyAll [] t b = (t, b) := rfl

theorem classifyAll_cons (s : Status) (posts : List Status) (t b : GoMap) :
    classifyAll (s :: posts) t b
      = classifyAll posts (classify s t b).1 (classify s t b).2 := rfl

theorem classifyAll_append (p q : List Status) (t b : GoMap) :
    classifyAll (p ++ q) t b = classifyAll q (classifyAll p t b).1 (classifyAll p t b).2 := by
  unfold classifyAll
  rw [List.foldl_append]

theorem classify_toot_lookup (s : Status) (t b : GoMap) (h : String) :
    (classify s t b).1.lookup h
      = if isTootBy h s then some (t.get h + 1) else t.lookup h := by
  unfold classify isTootBy
  cases hr : s.Reblog with
  | none =>
    simp only [GoMap.lookup_incr]
    by_cases hh : h = s.Account.Acct
    · subst hh; simp
    · have : ¬ s.Account.Acct = h := fun e => hh e.symm
      simp [hh, this]
  | some r => simp

theorem classify_boost_lookup (s : Status) (t b : GoMap) (h : String) :
    (classify s t b).2.lookup h
      = if isBoostOf h s then some (b.get h + 1) else b.lookup h := by
  unfold classify isBoostOf
  cases hr : s.Reblog with
  | none => simp
  | some r =>
    simp only [GoMap.lookup_incr]
    by_cases hh : h = r.Account.Acct
    · subst hh; simp
    · have : ¬ r.Account.Acct = h := fun e => hh e.symm
      simp [hh, this]

theorem get_of_lookup (m : GoMap) (h : String) (v : Int) (hv : m.lookup h = some v) :
    m.get h = v := by
  unfold GoMap.get
  rw [hv]

theorem classifyAll_toot_lookup (posts : List Status) (t b : GoMap) (h : String) :
    (classifyAll posts t b).1.lookup h
      = if posts.countP (isTootBy h) = 0 then t.lookup h
        else some (t.get h + (posts.countP (isTootBy h) : Int)) := by
  induction posts generalizing t b with
  | nil => simp [classifyAll_nil]
  | cons s posts ih =>
    rw [classifyAll_cons, ih, List.countP_cons]
    have h1 := classify_toot_lookup s t b h
    by_cases hs : isTootBy h s = true
    · rw [if_pos hs] at h1
      have hg := get_of_lookup _ _ _ h1
      simp only [hs, if_true, h1, hg]
      by_cases hc : List.countP (isTootBy h) posts = 0
      · simp [hc]
      · simp only [hc, if_false, Nat.add_eq_zero, and_false]
        congr 1
        push_cast
        ring
    · rw [if_neg hs] at h1
      have hg : (classify s t b).1.get h = t.get h := by
        unfold GoMap.get
        rw [h1]
      simp only [hs, h1, hg]
      simp

theorem classifyAll_boost_lookup (posts : List Status) (t b : GoMap) (h : String) :
    (classifyAll posts t b).2.lookup h
      = if posts.countP (isBoostOf h) = 0 then b.lookup h
        else some (b.get h + (posts.countP (isBoostOf h) : Int)) := by
  induction posts generalizing t b with
  | nil => simp [classifyAll_nil]
  | cons s posts ih =>
    rw [classifyAll_cons, ih, List.countP_cons]
    have h1 := classify_boost_lookup s t b h
    by_cases hs : isBoostOf h s = true
    · rw [if_pos hs] at h1
      have hg := get_of_lookup _ _ _ h1
      simp only [hs, if_true, h1, hg]
      by_cases hc : List.countP (isBoostOf h) posts = 0
      · simp [hc]
      · simp only [hc, if_false, Nat.add_eq_zero, and_false]
        congr 1
        push_cast
        ring
    · rw [if_neg hs] at h1
      have hg : (classify s t b).2.get h = b.get h := by
        unfold GoMap.get
        rw [h1]
      simp only [hs, h1, hg]
      simp

theorem classify_total (s : Status) (t b : GoMap) :
    (classify s t b).1.total = t.total + (if s.Reblog.isNone then 1 else 0)
    ∧ (classify s t b).2.total = b.total + (if s.Reblog.isSome then 1 else 0) := by
  unfold classify
  cases hr : s.Reblog with
  | none => simp [GoMap.total_incr]
  | some r => simp [GoMap.total_incr]

theorem classifyAll_total (posts : List Status) (t b : GoMap) :
    (classifyAll posts t b).1.total
        = t.total + (posts.countP (fun s => s.Reblog.isNone) : Int)
    ∧ (classifyAll posts t b).2.total
        = b.total + (posts.countP (fun s => s.Reblog.isSome) : Int) := by
  induction posts generalizing t b with
  | nil => simp [classifyAll_nil]
  | cons s posts ih =>
    rw [classifyAll_cons, List.countP_cons, List.countP_cons]
    obtain ⟨i1, i2⟩ := ih (classify s t b).1 (classify s t b).2
    obtain ⟨c1, c2⟩ := classify_total s t b
    rw [i1, i2, c1, c2]
    constructor
    · cases hr : s.Reblog.isNone
      · simp
      · simp; ring
    · cases hr : s.Reblog.isSome
      · simp
      · simp; ring

theorem countP_reblog_split (posts : List Status) :
    posts.countP (fun s => s.Reblog.isNone) + posts.countP (fun s => s.Reblog.isSome)
      = posts.length := by
  induction posts with
  | nil => rfl
  | cons s posts ih =>
    simp only [List.countP_cons, List.length_cons]
    cases hr : s.Reblog <;> simp <;> omega

/-- C2: counting one post changes one entry of one tally.  When the post has a
`Reblog`, the toot map is returned as it was and, in the boost map, the entry
of the reblogged post's author goes from its old count (0 when absent) to
that count plus 1 while every other handle keeps its entry (or its absence);
when the post has no `Reblog`, the same holds with the two maps exchanged and
the post's own author as the handle. -/
theorem classify_frame (status : Status) (tootCount boostCount : GoMap) :
    match status.Reblog with
    | some reblog =>
      (classify status tootCount boostCount).1 = tootCount
      ∧ ∀ h : String, (classify status tootCount boostCount).2.lookup h
          = if h = reblog.Account.Acct then some (boostCount.get reblog.Account.Acct + 1)
            else boostCount.lookup h
    | none =>
      (classify status tootCount boostCount).2 = boostCount
      ∧ ∀ h : String, (classify status tootCount boostCount).1.lookup h
          = if h = status.Account.Acct then some (tootCount.get status.Account.Acct + 1)
            else tootCount.lookup h := by
  unfold classify
  cases hr : status.Reblog with
  | none => exact ⟨rfl, fun h => GoMap.lookup_incr _ _ _⟩
  | some r => exact ⟨rfl, fun h => GoMap.lookup_incr _ _ _⟩

/-- C3: after any list of posts is counted from two empty maps, each handle
`h` has in the toot map the number of posts without `Reblog` written by `h`,
and in the boost map the number of posts with `Reblog` whose reblogged post
was written by `h`; a handle with no such post is not a key, and reads as 0. -/
theorem classifyAll_counts (posts : List Status) (h : String) :
    ((classifyAll posts GoMap.empty GoMap.empty).1.lookup h
        = if posts.countP (isTootBy h) = 0 then none
          else some (posts.countP (isTootBy h) : Int))
    ∧ ((classifyAll posts GoMap.empty GoMap.empty).2.lookup h
        = if posts.countP (isBoostOf h) = 0 then none
          else some (posts.countP (isBoostOf h) : Int))
    ∧ (classifyAll posts GoMap.empty GoMap.empty).1.get h = (posts.countP (isTootBy h) : Int)
    ∧ (classifyAll posts GoMap.empty GoMap.empty).2.get h
        = (posts.countP (isBoostOf h) : Int) := by
  have h1 := classifyAll_toot_lookup posts GoMap.empty GoMap.empty h
  have h2 := classifyAll_boost_lookup posts GoMap.empty GoMap.empty h
  simp only [GoMap.lookup_empty, GoMap.get_empty, zero_add] at h1 h2
  refine ⟨h1, h2, ?_, ?_⟩
  · unfold GoMap.get
    rw [h1]
    by_cases hc : List.countP (isTootBy h) posts = 0 <;> simp [hc]
  · unfold GoMap.get
    rw [h2]
    by_cases hc : List.countP (isBoostOf h) posts = 0 <;> simp [hc]

/-- C4: after `n` posts are counted from two empty maps, the total of the toot
map is the number of posts without `Reblog`, the total of the boost map is the
number of posts with `Reblog`, and the two totals add up to `n`, which is also
the `totalCombined` of the report. -/
theorem classifyAll_totals (posts : List Status) :
    (classifyAll posts GoMap.empty GoMap.empty).1.total
        = (posts.countP (fun s => s.Reblog.isNone) : Int)
    ∧ (classifyAll posts GoMap.empty GoMap.empty).2.total
        = (posts.countP (fun s => s.Reblog.isSome) : Int)
    ∧ (classifyAll posts GoMap.empty GoMap.empty).1.total
        + (classifyAll posts GoMap.empty GoMap.empty).2.total = (posts.length : Int)
    ∧ (report (classifyAll posts GoMap.empty GoMap.empty).1
          (classifyAll posts GoMap.empty GoMap.empty).2).totalCombined = (posts.length : Int) := by
  obtain ⟨h1, h2⟩ := classifyAll_total posts GoMap.empty GoMap.empty
  simp only [GoMap.total_empty, zero_add] at h1 h2
  have hsum : (classifyAll posts GoMap.empty GoMap.empty).1.total
      + (classifyAll posts GoMap.empty GoMap.empty).2.total = (posts.length : Int) := by
    rw [h1, h2]
    exact_mod_cast countP_reblog_split posts
  exact ⟨h1, h2, hsum, hsum⟩

/-! ## The scan of one page (lines 82-95) -/

theorem scanPage_eq (cutoff : Int) (page : List Status) (w : Walker) :
    scanPage cutoff page w
      = ({ w with
            tootCount := (classifyAll (page.takeWhile (fresh cutoff)) w.tootCount w.boostCount).1,
            boostCount := (classifyAll (page.takeWhile (fresh cutoff)) w.tootCount w.boostCount).2,
            forwarded := w.forwarded ++ page.takeWhile (fresh cutoff) },
         page.any (fun s => !fresh cutoff s)) := by
  induction page generalizing w with
  | nil => simp [scanPage, classifyAll_nil]
  | cons s page ih =>
    by_cases hs : s.CreatedAt < cutoff
    · have hf : fresh cutoff s = false := by simp [fresh, hs]
      simp [scanPage, hs, hf, List.takeWhile_cons, classifyAll_nil]
    · have hf : fresh cutoff s = true := by simp [fresh, hs]
      simp only [scanPage, hs, if_false, ih, List.takeWhile_cons, hf, if_true,
        classifyAll_cons, List.any_cons, Bool.not_true, Bool.false_or, List.append_assoc,
        List.singleton_append]

theorem takeWhile_eq_self_of_all (cutoff : Int) (page : List Status)
    (h : ∀ s ∈ page, cutoff ≤ s.CreatedAt) : page.takeWhile (fresh cutoff) = page := by
  rw [List.takeWhile_eq_self_iff]
  intro s hs
  have := h s hs
  simp only [fresh, Bool.not_eq_true', decide_eq_false_iff_not, not_lt]
  exact this

theorem any_old_iff (cutoff : Int) (page : List Status) :
    page.any (fun s => !fresh cutoff s) = true ↔ ∃ s ∈ page, s.CreatedAt < cutoff := by
  simp [fresh]

theorem fresh_iff (cutoff : Int) (s : Status) : fresh cutoff s = true ↔ cutoff ≤ s.CreatedAt := by
  simp [fresh]

theorem takeWhile_eq_filter_of_sorted (cutoff : Int) (page : List Status)
    (hsorted : page.Chain' (fun a b => b.CreatedAt ≤ a.CreatedAt)) :
    page.takeWhile (fresh cutoff) = page.filter (fun s => decide (cutoff ≤ s.CreatedAt)) := by
  induction page with
  | nil => rfl
  | cons s page ih =>
    have hrest := ih (List.Chain'.tail hsorted)
    haveI : IsTrans Status (fun a b => b.CreatedAt ≤ a.CreatedAt) :=
      ⟨fun a b c hab hbc => le_trans hbc hab⟩
    have hpw := (List.chain'_iff_pairwise.1 hsorted)
    by_cases hs : s.CreatedAt < cutoff
    · have hf : fresh cutoff s = false := by simp [fresh, hs]
      have hall : ∀ x ∈ page, ¬ cutoff ≤ x.CreatedAt := by
        intro x hx hcx
        have := (List.pairwise_cons.1 hpw).1 x hx
        omega
      have hnil : page.filter (fun s => decide (cutoff ≤ s.CreatedAt)) = [] := by
        rw [List.filter_eq_nil_iff]
        intro x hx
        simpa using hall x hx
      have hns : ¬ cutoff ≤ s.CreatedAt := by omega
      simp [List.takeWhile_cons, hf, List.filter_cons, hns, hnil]
    · have hf : fresh cutoff s = true := by simp [fresh, hs]
      have hcs : cutoff ≤ s.CreatedAt := by omega
      simp [List.takeWhile_cons, hf, List.filter_cons, hcs, hrest]

/-! ## One iteration and the whole loop (lines 66-103) -/

theorem iteration_error (src : TimelineSource) (cutoff : Int) (w : Walker) (err : String)
    (h : src w.requests.length w.request = .error err) :
    iteration src cutoff w = .fatal { w with requests := w.requests ++ [w.request] } err := by
  unfold Walker.request at h
  simp only [iteration, h]
  rfl

theorem iteration_empty (src : TimelineSource) (cutoff : Int) (w : Walker)
    (h : src w.requests.length w.request = .ok []) :
    iteration src cutoff w = .leave { w with requests := w.requests ++ [w.request] } := by
  unfold Walker.request at h
  simp only [iteration, h]
  rfl

theorem iteration_old (src : TimelineSource) (cutoff : Int) (w : Walker) (page : List Status)
    (h : src w.requests.length w.request = .ok page)
    (hold : ∃ s ∈ page, s.CreatedAt < cutoff) :
    iteration src cutoff w = .leave (w.afterPage cutoff page) := by
  unfold Walker.request at h
  have hany := (any_old_iff cutoff page).2 hold
  cases page with
  | nil => simp at hold
  | cons s rest =>
    simp only [iteration, h, scanPage_eq, hany, if_true]
    rfl

theorem iteration_fresh (src : TimelineSource) (cutoff : Int) (w : Walker) (page : List Status)
    (h : src w.requests.length w.request = .ok page) (hne : page ≠ [])
    (hall : ∀ s ∈ page, cutoff ≤ s.CreatedAt) :
    iteration src cutoff w
      = .next { w.afterPage cutoff page with
                  maxID := (page.getLast hne).ID, pageNum := w.pageNum + 1 } := by
  unfold Walker.request at h
  have hany : page.any (fun s => !fresh cutoff s) = false := by
    rw [Bool.eq_false_iff]
    intro hc
    obtain ⟨s, hs, hlt⟩ := (any_old_iff cutoff page).1 hc
    have := hall s hs
    omega
  cases page with
  | nil => exact absurd rfl hne
  | cons s rest =>
    simp only [iteration, h, scanPage_eq, hany]
    rfl

theorem walk_of_next (src : TimelineSource) (cutoff : Int) (fuel : Nat) (w w1 : Walker)
    (h : iteration src cutoff w = .next w1) :
    walk src cutoff (fuel + 1) w = walk src cutoff fuel w1 := by
  simp only [walk, h]

theorem walk_of_leave (src : TimelineSource) (cutoff : Int) (fuel : Nat) (w w1 : Walker)
    (h : iteration src cutoff w = .leave w1) :
    walk src cutoff (fuel + 1) w = .finished w1 := by
  simp only [walk, h]

theorem walk_of_fatal (src : TimelineSource) (cutoff : Int) (fuel : Nat) (w w1 : Walker)
    (err : String) (h : iteration src cutoff w = .fatal w1 err) :
    walk src cutoff (fuel + 1) w = .fatal w1 err := by
  simp only [walk, h]

theorem fresh_eq (cutoff : Int) :
    fresh cutoff = fun s => decide (cutoff ≤ s.CreatedAt) := by
  funext s
  by_cases h : s.CreatedAt < cutoff
  · have : ¬ cutoff ≤ s.CreatedAt := by omega
    simp [fresh, h, this]
  · have : cutoff ≤ s.CreatedAt := by omega
    simp [fresh, h, this]

/-- C1: when the page answered to the request of any state of the loop has
timestamps in non-increasing order and holds a post before the cutoff, the
loop is left in that very iteration: the counted posts grow by exactly the
posts of the page with timestamp at or after the cutoff, which are the posts
before the first one earlier than the cutoff, the two maps are what counting
those posts adds, and the only request sent is the one that fetched the page,
whatever the source would answer afterwards. -/
theorem cutoff_page_ends_walk (src : TimelineSource) (cutoff : Int) (w : Walker)
    (page : List Status) (fuel : Nat)
    (hpage : src w.requests.length w.request = .ok page)
    (hsorted : page.Chain' (fun a b => b.CreatedAt ≤ a.CreatedAt))
    (hold : ∃ s ∈ page, s.CreatedAt < cutoff) :
    ∃ w1 : Walker, walk src cutoff (fuel + 1) w = .finished w1
      ∧ w1.forwarded = w.forwarded ++ page.filter (fun s => decide (cutoff ≤ s.CreatedAt))
      ∧ (w1.tootCount, w1.boostCount)
          = classifyAll (page.filter (fun s => decide (cutoff ≤ s.CreatedAt)))
              w.tootCount w.boostCount
      ∧ w1.requests = w.requests ++ [w.request]
      ∧ page.filter (fun s => decide (cutoff ≤ s.CreatedAt))
          = page.takeWhile (fun s => decide (cutoff ≤ s.CreatedAt)) := by
  have hit := iteration_old src cutoff w page hpage hold
  have htf := takeWhile_eq_filter_of_sorted cutoff page hsorted
  refine ⟨w.afterPage cutoff page, walk_of_leave src cutoff fuel w _ hit, ?_, ?_, rfl, ?_⟩
  · simp only [Walker.afterPage, htf]
  · simp only [Walker.afterPage, htf]
  · rw [← htf, fresh_eq]

/-- C1, at a sample: the page `samplePage` against cutoff 76 from the first
state of the loop. -/
theorem cutoff_page_ends_walk_sample :
    ∃ w1 : Walker, walk sampleSource 76 (0 + 1) Walker.init = .finished w1
      ∧ w1.forwarded
          = Walker.init.forwarded ++ samplePage.filter (fun s => decide ((76 : Int) ≤ s.CreatedAt))
      ∧ (w1.tootCount, w1.boostCount)
          = classifyAll (samplePage.filter (fun s => decide ((76 : Int) ≤ s.CreatedAt)))
              Walker.init.tootCount Walker.init.boostCount
      ∧ w1.requests = Walker.init.requests ++ [Walker.init.request]
      ∧ samplePage.filter (fun s => decide ((76 : Int) ≤ s.CreatedAt))
          = samplePage.takeWhile (fun s => decide ((76 : Int) ≤ s.CreatedAt)) :=
  cutoff_page_ends_walk sampleSource 76 Walker.init samplePage 0 rfl
    (by simp [samplePage, samplePostA, samplePostB, samplePostC, Status.CreatedAt])
    ⟨samplePostC, by simp [samplePage], by decide⟩

theorem mem_freshPart (src : TimelineSource) (cutoff : Int) (kp : Nat × Pagination)
    (s : Status) (hs : s ∈ freshPart src cutoff kp) : cutoff ≤ s.CreatedAt := by
  unfold freshPart at hs
  cases hr : src kp.1 kp.2 with
  | error e => simp [hr] at hs
  | ok page =>
    simp only [hr] at hs
    exact (fresh_iff cutoff s).1 (List.mem_takeWhile_imp hs)

theorem inv_init (src : TimelineSource) (cutoff : Int) : Walker.init.Inv src cutoff := by
  refine ⟨?_, ?_, ?_⟩
  · intro s hs
    simp [Walker.init] at hs
  · rfl
  · rfl

theorem clean_init (src : TimelineSource) (cutoff : Int) : Walker.init.Clean src cutoff := by
  intro k pg page hk
  simp [Walker.init] at hk

theorem inv_extend (src : TimelineSource) (cutoff : Int) (w w1 : Walker)
    (hinv : w.Inv src cutoff)
    (hreq : w1.requests = w.requests ++ [w.request])
    (hfwd : w1.forwarded
      = w.forwarded ++ freshPart src cutoff (w.requests.length, w.request))
    (htally : (w1.tootCount, w1.boostCount)
      = classifyAll (freshPart src cutoff (w.requests.length, w.request))
          w.tootCount w.boostCount) :
    w1.Inv src cutoff := by
  obtain ⟨h1, h2, h3⟩ := hinv
  refine ⟨?_, ?_, ?_⟩
  · intro s hs
    rw [hfwd, List.mem_append] at hs
    rcases hs with hs | hs
    · exact h1 s hs
    · exact mem_freshPart src cutoff _ s hs
  · rw [hfwd, classifyAll_append, ← h2, htally]
  · rw [hfwd, hreq, List.enum_append, List.flatMap_append, ← h3, List.enumFrom_singleton]
    simp [List.flatMap]

theorem freshPart_error (src : TimelineSource) (cutoff : Int) (w : Walker) (err : String)
    (h : src w.requests.length w.request = .error err) :
    freshPart src cutoff (w.requests.length, w.request) = [] := by
  simp [freshPart, h]

theorem freshPart_ok (src : TimelineSource) (cutoff : Int) (w : Walker) (page : List Status)
    (h : src w.requests.length w.request = .ok page) :
    freshPart src cutoff (w.requests.length, w.request) = page.takeWhile (fresh cutoff) := by
  simp [freshPart, h]

/-- The loop invariant carried to every outcome of the loop: the outcome's state
satisfies `Walker.Inv`, and an answered page that holds a post before the
cutoff is the page of the last request sent, after which the loop was left. -/
theorem walk_sound (src : TimelineSource) (cutoff : Int) (fuel : Nat) (w : Walker)
    (hinv : w.Inv src cutoff) (hclean : w.Clean src cutoff) :
    (walk src cutoff fuel w).state.Inv src cutoff
    ∧ ∀ (k : Nat) (pg : Pagination) (page : List Status),
        (walk src cutoff fuel w).state.requests[k]? = some pg → src k pg = .ok page →
        (∃ s ∈ page, s.CreatedAt < cutoff) →
        (walk src cutoff fuel w).state.requests.length = k + 1
        ∧ walk src cutoff fuel w = .finished (walk src cutoff fuel w).state := by
  induction fuel generalizing w with
  | zero =>
    refine ⟨hinv, ?_⟩
    intro k pg page hk hsrc ⟨s, hs, hlt⟩
    have := hclean k pg page hk hsrc s hs
    omega
  | succ fuel ih =>
    -- what a request index below the old length, or equal to it, can be
    have hidx : ∀ (k : Nat) (pg : Pagination) (page : List Status),
        (w.requests ++ [w.request])[k]? = some pg → src k pg = .ok page →
        (∃ s ∈ page, s.CreatedAt < cutoff) →
        k = w.requests.length ∧ pg = w.request := by
      intro k pg page hk hsrc ⟨s, hs, hlt⟩
      by_cases hlen : k < w.requests.length
      · rw [List.getElem?_append_left hlen] at hk
        have := hclean k pg page hk hsrc s hs
        omega
      · have hge : w.requests.length ≤ k := by omega
        rw [List.getElem?_append_right hge] at hk
        have hk0 : k - w.requests.length = 0 := by
          by_contra hne
          have : [w.request][k - w.requests.length]? = none := by
            apply List.getElem?_eq_none
            simp only [List.length_singleton]
            omega
          rw [this] at hk
          exact absurd hk (by simp)
        rw [hk0] at hk
        simp only [List.getElem?_cons_zero, Option.some.injEq] at hk
        exact ⟨by omega, hk.symm⟩
    cases hr : src w.requests.length w.request with
    | error err =>
      have hit := iteration_error src cutoff w err hr
      rw [walk_of_fatal src cutoff fuel w _ err hit]
      refine ⟨inv_extend src cutoff w _ hinv rfl ?_ ?_, ?_⟩
      · simp [Outcome.state, freshPart_error src cutoff w err hr]
      · simp [Outcome.state, freshPart_error src cutoff w err hr, classifyAll_nil]
      · intro k pg page hk hsrc hold
        obtain ⟨hk1, hpg⟩ := hidx k pg page hk hsrc hold
        subst hk1 hpg
        rw [hr] at hsrc
        exact absurd hsrc (by simp)
    | ok page =>
      by_cases hold : ∃ s ∈ page, s.CreatedAt < cutoff
      · have hit := iteration_old src cutoff w page hr hold
        rw [walk_of_leave src cutoff fuel w _ hit]
        refine ⟨inv_extend src cutoff w _ hinv rfl ?_ ?_, ?_⟩
        · simp [Outcome.state, Walker.afterPage, freshPart_ok src cutoff w page hr]
        · simp [Outcome.state, Walker.afterPage, freshPart_ok src cutoff w page hr]
        · intro k pg page1 hk hsrc hold1
          obtain ⟨hk1, -⟩ := hidx k pg page1 hk hsrc hold1
          refine ⟨?_, rfl⟩
          simp [Outcome.state, Walker.afterPage, hk1]
      · have hall : ∀ s ∈ page, cutoff ≤ s.CreatedAt := by
          intro s hs
          by_contra hlt
          exact hold ⟨s, hs, by omega⟩
        by_cases hne : page = []
        · subst hne
          have hit := iteration_empty src cutoff w hr
          rw [walk_of_leave src cutoff fuel w _ hit]
          refine ⟨inv_extend src cutoff w _ hinv rfl ?_ ?_, ?_⟩
          · simp [Outcome.state, freshPart_ok src cutoff w [] hr]
          · simp [Outcome.state, freshPart_ok src cutoff w [] hr, classifyAll_nil]
          · intro k pg page1 hk hsrc hold1
            obtain ⟨hk1, hpg⟩ := hidx k pg page1 hk hsrc hold1
            subst hk1 hpg
            rw [hr] at hsrc
            obtain ⟨s, hs, -⟩ := hold1
            have : page1 = [] := by
              simpa using hsrc.symm
            subst this
            simp at hs
        · have hit := iteration_fresh src cutoff w page hr hne hall
          rw [walk_of_next src cutoff fuel w _ hit]
          apply ih
          · refine inv_extend src cutoff w _ hinv rfl ?_ ?_
            · simp [Walker.afterPage, freshPart_ok src cutoff w page hr]
            · simp [Walker.afterPage, freshPart_ok src cutoff w page hr]
          · intro k pg page1 hk hsrc s hs
            by_contra hlt
            have hold1 : ∃ s ∈ page1, s.CreatedAt < cutoff := ⟨s, hs, by omega⟩
            obtain ⟨hk1, hpg⟩ := hidx k pg page1 hk hsrc hold1
            subst hk1 hpg
            rw [hr] at hsrc
            have : page1 = page := by
              simpa using hsrc.symm
            subst this
            exact hold hold1

/-- C5: at every point of the walk from the first state, whatever the source
and the cutoff, every counted post has a timestamp at or after the cutoff, the
two maps hold exactly the counted posts, the counted posts are page by page
the posts that come before the first post earlier than the cutoff, and a page
holding such a post is the last page requested, the loop being left there. -/
theorem old_posts_never_counted (src : TimelineSource) (cutoff : Int) (fuel : Nat) :
    ∃ w : Walker, (walk src cutoff fuel Walker.init).state = w
      ∧ (∀ s ∈ w.forwarded, cutoff ≤ s.CreatedAt)
      ∧ (w.tootCount, w.boostCount) = classifyAll w.forwarded GoMap.empty GoMap.empty
      ∧ w.forwarded = w.requests.enum.flatMap (freshPart src cutoff)
      ∧ ∀ (k : Nat) (pg : Pagination) (page : List Status),
          w.requests[k]? = some pg → src k pg = .ok page →
          (∃ s ∈ page, s.CreatedAt < cutoff) →
          w.requests.length = k + 1 ∧ walk src cutoff fuel Walker.init = .finished w := by
  obtain ⟨⟨h1, h2, h3⟩, h4⟩ :=
    walk_sound src cutoff fuel Walker.init (inv_init src cutoff) (clean_init src cutoff)
  exact ⟨_, rfl, h1, h2, h3, h4⟩

/-- C5, at a sample: on `sampleTimeline` with cutoff 76 the walk counts the two
posts of the first page and the first post of the second page, and sends two
requests, however many iterations it is allowed. -/
theorem old_posts_never_counted_sample :
    (∃ w : Walker, (walk sampleTimeline 76 5 Walker.init).state = w
      ∧ (∀ s ∈ w.forwarded, (76 : Int) ≤ s.CreatedAt)
      ∧ (w.tootCount, w.boostCount) = classifyAll w.forwarded GoMap.empty GoMap.empty
      ∧ w.forwarded = w.requests.enum.flatMap (freshPart sampleTimeline 76)
      ∧ ∀ (k : Nat) (pg : Pagination) (page : List Status),
          w.requests[k]? = some pg → sampleTimeline k pg = .ok page →
          (∃ s ∈ page, s.CreatedAt < 76) →
          w.requests.length = k + 1 ∧ walk sampleTimeline 76 5 Walker.init = .finished w)
    ∧ (walk sampleTimeline 76 5 Walker.init).state.forwarded.map Status.ID
        = ["109", "108", "108"]
    ∧ (walk sampleTimeline 76 5 Walker.init).state.requests.length = 2 :=
  ⟨old_posts_never_counted sampleTimeline 76 5, by decide, by decide⟩

theorem iteration_requests (src : TimelineSource) (cutoff : Int) (w : Walker) :
    (iteration src cutoff w).state.requests = w.requests ++ [w.request] := by
  cases hr : src w.requests.length w.request with
  | error err => rw [iteration_error src cutoff w err hr]; rfl
  | ok page =>
    by_cases hold : ∃ s ∈ page, s.CreatedAt < cutoff
    · rw [iteration_old src cutoff w page hr hold]; rfl
    · have hall : ∀ s ∈ page, cutoff ≤ s.CreatedAt := by
        intro s hs
        by_contra hlt
        exact hold ⟨s, hs, by omega⟩
      by_cases hne : page = []
      · subst hne
        rw [iteration_empty src cutoff w hr]; rfl
      · rw [iteration_fresh src cutoff w page hr hne hall]; rfl

theorem walk_requests_grow (src : TimelineSource) (cutoff : Int) (fuel : Nat) (w : Walker) :
    ∃ tail : List Pagination, (walk src cutoff fuel w).state.requests = w.requests ++ tail := by
  induction fuel generalizing w with
  | zero => exact ⟨[], by simp [walk, Outcome.state]⟩
  | succ fuel ih =>
    have hreq := iteration_requests src cutoff w
    cases hit : iteration src cutoff w with
    | next w1 =>
      rw [hit] at hreq
      obtain ⟨tail, ht⟩ := ih w1
      refine ⟨w.request :: tail, ?_⟩
      rw [walk_of_next src cutoff fuel w w1 hit, ht]
      simp only [Step.state] at hreq
      rw [hreq]
      simp
    | leave w1 =>
      rw [hit] at hreq
      rw [walk_of_leave src cutoff fuel w w1 hit]
      exact ⟨[w.request], hreq⟩
    | fatal w1 err =>
      rw [hit] at hreq
      rw [walk_of_fatal src cutoff fuel w w1 err hit]
      exact ⟨[w.request], hreq⟩

theorem walk_succ_requests (src : TimelineSource) (cutoff : Int) (fuel : Nat) (w : Walker) :
    ∃ tail : List Pagination,
      (walk src cutoff (fuel + 1) w).state.requests = w.requests ++ w.request :: tail := by
  have hreq := iteration_requests src cutoff w
  cases hit : iteration src cutoff w with
  | next w1 =>
    rw [hit] at hreq
    obtain ⟨tail, ht⟩ := walk_requests_grow src cutoff fuel w1
    refine ⟨tail, ?_⟩
    rw [walk_of_next src cutoff fuel w w1 hit, ht]
    simp only [Step.state] at hreq
    rw [hreq]
    simp
  | leave w1 =>
    rw [hit] at hreq
    rw [walk_of_leave src cutoff fuel w w1 hit]
    exact ⟨[], hreq⟩
  | fatal w1 err =>
    rw [hit] at hreq
    rw [walk_of_fatal src cutoff fuel w w1 err hit]
    exact ⟨[], hreq⟩

/-- C10: the first request of the walk carries no `MaxID` and `Limit` 40; and
when the request of any state of the loop is answered by a non-empty page
without a post before the cutoff, the iteration counts every post of the page
in the order of the page, the loop goes round, and the next request sent
carries the `ID` of the last post of the page as `MaxID`, with `Limit` 40. -/
theorem pagination_requests (src : TimelineSource) (cutoff : Int) :
    (∀ fuel : Nat, (walk src cutoff (fuel + 1) Walker.init).state.requests.head?
        = some { MaxID := "", SinceID := "", MinID := "", Limit := 40 })
    ∧ ∀ (w : Walker) (page : List Status) (hne : page ≠ []) (fuel : Nat),
        src w.requests.length w.request = .ok page →
        (∀ s ∈ page, cutoff ≤ s.CreatedAt) →
        ∃ w1 : Walker, iteration src cutoff w = .next w1
          ∧ w1.forwarded = w.forwarded ++ page
          ∧ (w1.tootCount, w1.boostCount) = classifyAll page w.tootCount w.boostCount
          ∧ w1.requests = w.requests ++ [w.request]
          ∧ w.request.Limit = 40
          ∧ (walk src cutoff (fuel + 2) w).state.requests.take (w.requests.length + 2)
              = w.requests ++ [w.request,
                  { MaxID := (page.getLast hne).ID, SinceID := "", MinID := "", Limit := 40 }] := by
  constructor
  · intro fuel
    obtain ⟨tail, ht⟩ := walk_succ_requests src cutoff fuel Walker.init
    rw [ht]
    rfl
  · intro w page hne fuel hpage hall
    have hit := iteration_fresh src cutoff w page hpage hne hall
    have htw := takeWhile_eq_self_of_all cutoff page hall
    refine ⟨_, hit, ?_, ?_, rfl, rfl, ?_⟩
    · simp [Walker.afterPage, htw]
    · simp [Walker.afterPage, htw]
    · rw [walk_of_next src cutoff (fuel + 1) w _ hit]
      obtain ⟨tail, ht⟩ := walk_succ_requests src cutoff fuel
        { w.afterPage cutoff page with
            maxID := (page.getLast hne).ID, pageNum := w.pageNum + 1 }
      rw [ht]
      simp only [Walker.afterPage, Walker.request, limit]
      rw [List.append_assoc, List.take_append_eq_append_take]
      simp

/-- C10, at a sample: the first page of `sampleTimeline` against cutoff 76,
from the first state of the loop. -/
theorem pagination_requests_sample :
    ∃ w1 : Walker, iteration sampleTimeline 76 Walker.init = .next w1
      ∧ w1.forwarded = Walker.init.forwarded ++ [samplePostA, samplePostB]
      ∧ (w1.tootCount, w1.boostCount)
          = classifyAll [samplePostA, samplePostB] Walker.init.tootCount Walker.init.boostCount
      ∧ w1.requests = Walker.init.requests ++ [Walker.init.request]
      ∧ Walker.init.request.Limit = 40
      ∧ (walk sampleTimeline 76 (0 + 2) Walker.init).state.requests.take
            (Walker.init.requests.length + 2)
          = Walker.init.requests ++ [Walker.init.request,
              { MaxID := ([samplePostA, samplePostB].getLast (List.cons_ne_nil _ _)).ID,
                SinceID := "", MinID := "", Limit := 40 }] :=
  (pagination_requests sampleTimeline 76).2 Walker.init [samplePostA, samplePostB]
    (List.cons_ne_nil _ _) 0 rfl
    (by
      intro s hs
      simp only [List.mem_cons, List.mem_singleton, List.not_mem_nil, or_false] at hs
      rcases hs with rfl | rfl <;> decide)

/-! ## The combined tally and the totals (lines 105-114 and 132-139) -/

theorem get_add (m : GoMap) (k : String) (c : Int) (h : String) :
    (m.add k c).get h = if h = k then m.get k + c else m.get h :=
  GoMap.get_set m k _ h

theorem foldl_add_get (es : List (String × Int)) (hnd : (es.map Prod.fst).Nodup)
    (c : GoMap) (h : String) :
    (es.foldl (fun c e => c.add e.1 e.2) c).get h
      = c.get h + (match es.lookup h with | some v => v | none => 0) := by
  induction es generalizing c with
  | nil => simp
  | cons e es ih =>
    obtain ⟨a, v⟩ := e
    rw [List.map_cons, List.nodup_cons] at hnd
    rw [List.foldl_cons, ih hnd.2, get_add]
    by_cases hha : h = a
    · subst hha
      have hnone := GoMap.lookup_none_of_not_mem h es hnd.1
      simp [List.lookup_cons, hnone]
    · have hne : (h == a) = false := by simpa using hha
      simp [List.lookup_cons, hne, hha]

theorem foldl_add_keys (es : List (String × Int)) (c : GoMap) (h : String) :
    h ∈ (es.foldl (fun c e => c.add e.1 e.2) c).keys ↔ h ∈ c.keys ∨ h ∈ es.map Prod.fst := by
  induction es generalizing c with
  | nil => simp
  | cons e es ih =>
    rw [List.foldl_cons, ih]
    unfold GoMap.add
    rw [GoMap.mem_keys_set]
    simp only [List.map_cons, List.mem_cons]
    tauto

/-- C6: for any two maps, the combined map of lines 132-139 reads at every
handle as the sum of the two reads (0 for a missing key), its keys are the
handles that are a key of either map, and the printed `totalCombined` is
`totalToots + totalBoosts`, the two sums of the values of the maps. -/
theorem combine_is_sum (tootCount boostCount : GoMap) :
    (∀ h : String, (combine tootCount boostCount).get h = tootCount.get h + boostCount.get h)
    ∧ (∀ h : String, h ∈ (combine tootCount boostCount).keys
        ↔ h ∈ tootCount.keys ∨ h ∈ boostCount.keys)
    ∧ (report tootCount boostCount).totalCombined
        = (report tootCount boostCount).totalToots + (report tootCount boostCount).totalBoosts
    ∧ (report tootCount boostCount).totalToots = (tootCount.entries.map Prod.snd).sum
    ∧ (report tootCount boostCount).totalBoosts = (boostCount.entries.map Prod.snd).sum := by
  refine ⟨?_, ?_, rfl, GoMap.total_eq_sum tootCount, GoMap.total_eq_sum boostCount⟩
  · intro h
    unfold combine
    rw [foldl_add_get _ boostCount.nodup, foldl_add_get _ tootCount.nodup]
    simp [GoMap.get, GoMap.lookup, GoMap.empty]
  · intro h
    unfold combine
    rw [foldl_add_keys, foldl_add_keys]
    simp [GoMap.keys, GoMap.empty]

/-! ## `sortByCountDescending` -/

theorem sinkLeft_perm {α : Type} (lt : α → α → Bool) (x : α) (rp : List α) :
    (sinkLeft lt x rp).Perm (x :: rp) := by
  induction rp with
  | nil => exact List.Perm.refl _
  | cons p rp ih =>
    unfold sinkLeft
    by_cases h : lt x p = true
    · simp only [h, if_true]
      exact (List.Perm.cons p ih).trans (List.Perm.swap x p rp)
    · simp only [h]
      exact List.Perm.refl _

theorem foldl_sinkLeft_perm {α : Type} (lt : α → α → Bool) (s acc : List α) :
    (s.foldl (fun rp x => sinkLeft lt x rp) acc).Perm (s ++ acc) := by
  induction s generalizing acc with
  | nil => exact List.Perm.refl _
  | cons x s ih =>
    rw [List.foldl_cons]
    refine (ih _).trans ?_
    refine (List.Perm.append_left s (sinkLeft_perm lt x acc)).trans ?_
    simp

theorem sortSlice_perm {α : Type} (lt : α → α → Bool) (s : List α) :
    (sortSlice lt s).Perm s := by
  unfold sortSlice
  refine (List.reverse_perm _).trans ?_
  simpa using foldl_sinkLeft_perm lt s []

theorem sinkLeft_sorted (x : countEntry) (rp : List countEntry)
    (h : rp.Pairwise (fun a b => a.Count ≤ b.Count)) :
    (sinkLeft less x rp).Pairwise (fun a b => a.Count ≤ b.Count) := by
  induction rp with
  | nil => simp [sinkLeft]
  | cons p rp ih =>
    rw [List.pairwise_cons] at h
    unfold sinkLeft
    by_cases hl : less x p = true
    · simp only [hl, if_true]
      have hxp : p.Count < x.Count := by simpa [less] using hl
      rw [List.pairwise_cons]
      refine ⟨?_, ih h.2⟩
      intro b hb
      rcases (List.Perm.mem_iff (sinkLeft_perm less x rp)).1 hb with hb1
      rw [List.mem_cons] at hb1
      rcases hb1 with rfl | hb1
      · omega
      · exact h.1 b hb1
    · simp only [hl, Bool.false_eq_true, if_false]
      have hxp : x.Count ≤ p.Count := by
        have : ¬ p.Count < x.Count := by simpa [less] using hl
        omega
      rw [List.pairwise_cons]
      refine ⟨?_, List.pairwise_cons.2 h⟩
      intro b hb
      rw [List.mem_cons] at hb
      rcases hb with rfl | hb
      · exact hxp
      · exact le_trans hxp (h.1 b hb)

theorem foldl_sinkLeft_sorted (s acc : List countEntry)
    (h : acc.Pairwise (fun a b => a.Count ≤ b.Count)) :
    (s.foldl (fun rp x => sinkLeft less x rp) acc).Pairwise (fun a b => a.Count ≤ b.Count) := by
  induction s generalizing acc with
  | nil => exact h
  | cons x s ih =>
    rw [List.foldl_cons]
    exact ih _ (sinkLeft_sorted x acc h)

theorem sortSlice_sorted (s : List countEntry) :
    (sortSlice less s).Pairwise (fun a b => b.Count ≤ a.Count) := by
  unfold sortSlice
  rw [List.pairwise_reverse]
  exact foldl_sinkLeft_sorted s [] List.Pairwise.nil

theorem collect_foldl (es : List (String × Int)) (acc : List countEntry) :
    es.foldl (fun sorted e => if e.2 > 1 then sorted ++ [countEntry.mk e.1 e.2] else sorted) acc
      = acc ++ (es.filter (fun e => decide (1 < e.2))).map (fun e => countEntry.mk e.1 e.2) := by
  induction es generalizing acc with
  | nil => simp
  | cons e es ih =>
    rw [List.foldl_cons, ih]
    by_cases h : 1 < e.2
    · simp [List.filter_cons, h]
    · simp [List.filter_cons, h]

theorem collect_eq (m : GoMap) :
    collect m
      = (m.entries.filter (fun e => decide (1 < e.2))).map (fun e => countEntry.mk e.1 e.2) := by
  unfold collect
  rw [collect_foldl]
  simp

theorem mem_sortByCountDescending (m : GoMap) (e : countEntry) :
    e ∈ sortByCountDescending m ↔ (e.Acct, e.Count) ∈ m.entries ∧ 1 < e.Count := by
  unfold sortByCountDescending
  rw [List.Perm.mem_iff (sortSlice_perm less _), collect_eq]
  simp only [List.mem_map, List.mem_filter, decide_eq_true_eq]
  constructor
  · rintro ⟨p, ⟨hp, hgt⟩, rfl⟩
    exact ⟨hp, hgt⟩
  · rintro ⟨hp, hgt⟩
    exact ⟨(e.Acct, e.Count), ⟨hp, hgt⟩, rfl⟩

/-- C7: no entry of `sortByCountDescending m` has a count of 1 or less; so
none of the three ranked lists that lines 122-144 print has such an entry. -/
theorem ranked_counts_above_one (m tootCount boostCount : GoMap) :
    (∀ e ∈ sortByCountDescending m, ¬ e.Count ≤ 1)
    ∧ (∀ e ∈ (report tootCount boostCount).topToots, ¬ e.Count ≤ 1)
    ∧ (∀ e ∈ (report tootCount boostCount).topBoosts, ¬ e.Count ≤ 1)
    ∧ (∀ e ∈ (report tootCount boostCount).topCombined, ¬ e.Count ≤ 1) := by
  have key : ∀ (m : GoMap), ∀ e ∈ sortByCountDescending m, ¬ e.Count ≤ 1 := by
    intro m e he
    have := ((mem_sortByCountDescending m e).1 he).2
    omega
  exact ⟨key m, key tootCount, key boostCount, key (combine tootCount boostCount)⟩

/-- C8: the list `sortByCountDescending m` is in non-increasing order of
`Count`: each entry has a count at least that of the entry right after it,
and indeed of every entry after it. -/
theorem ranked_descending (m : GoMap) :
    (sortByCountDescending m).Chain' (fun a b => a.Count ≥ b.Count)
    ∧ (sortByCountDescending m).Pairwise (fun a b => a.Count ≥ b.Count) := by
  have h : (sortByCountDescending m).Pairwise (fun a b => a.Count ≥ b.Count) :=
    sortSlice_sorted (collect m)
  exact ⟨List.Pairwise.chain' h, h⟩

theorem lookup_of_mem (es : List (String × Int)) (hnd : (es.map Prod.fst).Nodup)
    (k : String) (v : Int) (h : (k, v) ∈ es) : es.lookup k = some v := by
  induction es with
  | nil => simp at h
  | cons e es ih =>
    obtain ⟨a, b⟩ := e
    rw [List.map_cons, List.nodup_cons] at hnd
    rw [List.mem_cons] at h
    rcases h with h | h
    · simp only [Prod.mk.injEq] at h
      obtain ⟨rfl, rfl⟩ := h
      simp [List.lookup_cons]
    · have hka : k ≠ a := by
        intro hka
        subst hka
        exact hnd.1 (List.mem_map.2 ⟨(k, v), h, rfl⟩)
      have hne : (k == a) = false := by simpa using hka
      simp [List.lookup_cons, hne, ih hnd.2 h]

theorem filtered_by_acct (es : List (String × Int)) (hnd : (es.map Prod.fst).Nodup)
    (h : String) :
    (((es.filter (fun e => decide (1 < e.2))).map (fun e => countEntry.mk e.1 e.2)).filter
        (fun e => decide (e.Acct = h)))
      = if (1 : Int) < (match es.lookup h with | some v => v | none => (0 : Int))
        then [countEntry.mk h (match es.lookup h with | some v => v | none => (0 : Int))]
        else [] := by
  induction es with
  | nil => simp
  | cons e es ih =>
    obtain ⟨a, b⟩ := e
    rw [List.map_cons, List.nodup_cons] at hnd
    have ih1 := ih hnd.2
    by_cases hha : h = a
    · subst hha
      have hnone := GoMap.lookup_none_of_not_mem h es hnd.1
      rw [hnone] at ih1
      simp only [Int.reduceLT, if_false] at ih1
      by_cases hb : 1 < b
      · simp [List.filter_cons, List.lookup_cons, hb, ih1]
      · simp [List.filter_cons, List.lookup_cons, hb, ih1]
    · have hne : (h == a) = false := by simpa using hha
      have hah : ¬ a = h := fun e => hha e.symm
      by_cases hb : 1 < b
      · simp only [List.filter_cons, hb, decide_True, if_true, List.map_cons, hah,
          decide_False, Bool.false_eq_true, if_false, List.lookup_cons, hne]
        exact ih1
      · simp only [List.filter_cons, hb, decide_False, Bool.false_eq_true, if_false,
          List.lookup_cons, hne]
        exact ih1

theorem filtered_accts_nodup (es : List (String × Int)) (hnd : (es.map Prod.fst).Nodup) :
    ((((es.filter (fun e => decide (1 < e.2))).map (fun e => countEntry.mk e.1 e.2))).map
      countEntry.Acct).Nodup := by
  have hmap : (((es.filter (fun e => decide (1 < e.2))).map
      (fun e => countEntry.mk e.1 e.2))).map countEntry.Acct
      = (es.filter (fun e => decide (1 < e.2))).map Prod.fst := by
    rw [List.map_map]
    rfl
  rw [hmap]
  exact ((List.filter_sublist es).map Prod.fst).nodup hnd

/-- C9: `sortByCountDescending m` is a rearrangement of the entries of `m`
whose count is above 1: for every handle `h` the entries of the list that
carry `h` are the one entry `(h, m[h])` when `m[h] > 1` and none otherwise,
every entry of the list is an entry of `m` with a count above 1, and no handle
occurs twice. -/
theorem ranked_is_filtered (m : GoMap) :
    (sortByCountDescending m).Perm
        ((m.entries.filter (fun e => decide (1 < e.2))).map (fun e => countEntry.mk e.1 e.2))
    ∧ (∀ h : String, (sortByCountDescending m).filter (fun e => decide (e.Acct = h))
        = if 1 < m.get h then [countEntry.mk h (m.get h)] else [])
    ∧ (∀ e ∈ sortByCountDescending m, m.lookup e.Acct = some e.Count ∧ 1 < e.Count)
    ∧ ((sortByCountDescending m).map countEntry.Acct).Nodup := by
  have hperm : (sortByCountDescending m).Perm
      ((m.entries.filter (fun e => decide (1 < e.2))).map (fun e => countEntry.mk e.1 e.2)) := by
    unfold sortByCountDescending
    rw [← collect_eq]
    exact sortSlice_perm less (collect m)
  refine ⟨hperm, ?_, ?_, ?_⟩
  · intro h
    have hf := List.Perm.filter (fun e => decide (e.Acct = h)) hperm
    rw [filtered_by_acct m.entries m.nodup h] at hf
    have hget : (match m.entries.lookup h with | some v => v | none => 0) = m.get h := rfl
    rw [hget] at hf
    by_cases hgt : 1 < m.get h
    · rw [if_pos hgt] at hf ⊢
      exact List.perm_singleton.1 hf
    · rw [if_neg hgt] at hf ⊢
      exact List.perm_nil.1 hf
  · intro e he
    obtain ⟨hmem, hgt⟩ := (mem_sortByCountDescending m e).1 he
    exact ⟨lookup_of_mem m.entries m.nodup e.Acct e.Count hmem, hgt⟩
  · exact (List.Perm.nodup_iff (List.Perm.map countEntry.Acct hperm)).2
      (filtered_accts_nodup m.entries m.nodup)

/-! ## How the loop ends -/

theorem walk_running_add (src : TimelineSource) (cutoff : Int) (n m : Nat) (w0 w : Walker)
    (h : walk src cutoff n w0 = .running w) :
    walk src cutoff (n + m) w0 = walk src cutoff m w := by
  induction n generalizing w0 with
  | zero =>
    simp only [walk, Outcome.running.injEq] at h
    subst h
    simp
  | succ n ih =>
    have hnm : n + 1 + m = (n + m) + 1 := by omega
    cases hit : iteration src cutoff w0 with
    | next w1 =>
      rw [walk_of_next src cutoff n w0 w1 hit] at h
      rw [hnm, walk_of_next src cutoff (n + m) w0 w1 hit]
      exact ih w1 h
    | leave w1 =>
      rw [walk_of_leave src cutoff n w0 w1 hit] at h
      exact absurd h (by simp)
    | fatal w1 err =>
      rw [walk_of_fatal src cutoff n w0 w1 err hit] at h
      exact absurd h (by simp)

theorem walk_stable (src : TimelineSource) (cutoff : Int) (n m : Nat) (w0 : Walker)
    (h : ∀ w, walk src cutoff n w0 ≠ .running w) :
    walk src cutoff (n + m) w0 = walk src cutoff n w0 := by
  induction n generalizing w0 with
  | zero => exact absurd rfl (h w0)
  | succ n ih =>
    have hnm : n + 1 + m = (n + m) + 1 := by omega
    cases hit : iteration src cutoff w0 with
    | next w1 =>
      rw [walk_of_next src cutoff n w0 w1 hit] at h ⊢
      rw [hnm, walk_of_next src cutoff (n + m) w0 w1 hit]
      exact ih w1 h
    | leave w1 =>
      rw [hnm, walk_of_leave src cutoff (n + m) w0 w1 hit, walk_of_leave src cutoff n w0 w1 hit]
    | fatal w1 err =>
      rw [hnm, walk_of_fatal src cutoff (n + m) w0 w1 err hit,
        walk_of_fatal src cutoff n w0 w1 err hit]

/-- The three ways an iteration can go, read off the answer of the timeline. -/
theorem iteration_cases (src : TimelineSource) (cutoff : Int) (w : Walker) :
    (∃ err, src w.requests.length w.request = .error err
        ∧ iteration src cutoff w = .fatal { w with requests := w.requests ++ [w.request] } err)
    ∨ (∃ page, src w.requests.length w.request = .ok page
        ∧ (page = [] ∨ ∃ s ∈ page, s.CreatedAt < cutoff)
        ∧ iteration src cutoff w = .leave (w.afterPage cutoff page))
    ∨ (∃ (page : List Status) (hne : page ≠ []), src w.requests.length w.request = .ok page
        ∧ (∀ s ∈ page, cutoff ≤ s.CreatedAt)
        ∧ iteration src cutoff w
            = .next { w.afterPage cutoff page with
                        maxID := (page.getLast hne).ID, pageNum := w.pageNum + 1 }) := by
  cases hr : src w.requests.length w.request with
  | error err => exact Or.inl ⟨err, rfl, iteration_error src cutoff w err hr⟩
  | ok page =>
    by_cases hold : ∃ s ∈ page, s.CreatedAt < cutoff
    · exact Or.inr (Or.inl ⟨page, rfl, Or.inr hold, iteration_old src cutoff w page hr hold⟩)
    · have hall : ∀ s ∈ page, cutoff ≤ s.CreatedAt := by
        intro s hs
        by_contra hlt
        exact hold ⟨s, hs, by omega⟩
      by_cases hne : page = []
      · subst hne
        refine Or.inr (Or.inl ⟨[], rfl, Or.inl rfl, ?_⟩)
        rw [iteration_empty src cutoff w hr]
        simp [Walker.afterPage, classifyAll_nil]
      · exact Or.inr (Or.inr ⟨page, hne, rfl, hall,
          iteration_fresh src cutoff w page hr hne hall⟩)

theorem walk_fatal_inv (src : TimelineSource) (cutoff : Int) (fuel : Nat) (w w1 : Walker)
    (err : String) (h : walk src cutoff fuel w = .fatal w1 err) :
    ∃ (k : Nat) (pg : Pagination),
      w1.requests[k]? = some pg ∧ src k pg = .error err ∧ w1.requests.length = k + 1 := by
  induction fuel generalizing w with
  | zero => simp [walk] at h
  | succ fuel ih =>
    rcases iteration_cases src cutoff w with ⟨e, hsrc, hit⟩ | ⟨page, _, _, hit⟩
      | ⟨page, hne, _, _, hit⟩
    · rw [walk_of_fatal src cutoff fuel w _ e hit] at h
      simp only [Outcome.fatal.injEq] at h
      obtain ⟨hw, he⟩ := h
      subst hw he
      refine ⟨w.requests.length, w.request, ?_, hsrc, ?_⟩
      · simp
      · simp
    · rw [walk_of_leave src cutoff fuel w _ hit] at h
      exact absurd h (by simp)
    · rw [walk_of_next src cutoff fuel w _ hit] at h
      exact ih _ h

theorem main_of_configure (env : Env) (now : Int) (src : TimelineSource) (fuel : Nat)
    (cutoffHours cutoff : Int) (hcfg : configure env now = .ok (cutoffHours, cutoff)) :
    main env now src fuel
      = match walk src cutoff fuel Walker.init with
        | .finished w => .reported (report w.tootCount w.boostCount) w.requests
        | .fatal w err => .failed (.fetch err) w.requests
        | .running w => .running w := by
  simp only [main, hcfg]

theorem report_empty :
    report GoMap.empty GoMap.empty
      = { totalToots := 0, totalBoosts := 0, totalCombined := 0,
          topToots := [], topBoosts := [], topCombined := [] } := by
  rfl

/-- C11: when the request of any state of the loop is answered by an empty
page, the loop is left at once: no further request is sent and the two maps
are what they were.  A run with a valid configuration that reaches such a
state prints the report of the maps gathered so far; when it is the first
page that is empty, the run prints three totals of 0 and three empty ranked
lists, and does not fail. -/
theorem empty_page_ends_walk (src : TimelineSource) (cutoff : Int) :
    (∀ (w : Walker) (fuel : Nat), src w.requests.length w.request = .ok [] →
        walk src cutoff (fuel + 1) w
          = .finished { w with requests := w.requests ++ [w.request] })
    ∧ (∀ (env : Env) (now cutoffHours : Int) (n fuel : Nat) (w : Walker),
        configure env now = .ok (cutoffHours, cutoff) →
        walk src cutoff n Walker.init = .running w →
        src w.requests.length w.request = .ok [] →
        main env now src (n + (fuel + 1))
          = .reported (report w.tootCount w.boostCount) (w.requests ++ [w.request]))
    ∧ (∀ (env : Env) (now cutoffHours : Int) (fuel : Nat),
        configure env now = .ok (cutoffHours, cutoff) →
        src 0 Walker.init.request = .ok [] →
        main env now src (fuel + 1)
          = .reported
              { totalToots := 0, totalBoosts := 0, totalCombined := 0,
                topToots := [], topBoosts := [], topCombined := [] }
              [Walker.init.request]) := by
  have h1 : ∀ (w : Walker) (fuel : Nat), src w.requests.length w.request = .ok [] →
      walk src cutoff (fuel + 1) w
        = .finished { w with requests := w.requests ++ [w.request] } := by
    intro w fuel hsrc
    exact walk_of_leave src cutoff fuel w _ (iteration_empty src cutoff w hsrc)
  refine ⟨h1, ?_, ?_⟩
  · intro env now cutoffHours n fuel w hcfg hrun hsrc
    rw [main_of_configure env now src _ cutoffHours cutoff hcfg,
      walk_running_add src cutoff n (fuel + 1) Walker.init w hrun, h1 w fuel hsrc]
  · intro env now cutoffHours fuel hcfg hsrc
    rw [main_of_configure env now src _ cutoffHours cutoff hcfg, h1 Walker.init fuel hsrc]
    rfl

/-- C11, at a sample: a timeline whose every page is empty, under the sample
configuration at instant 1000. -/
theorem empty_page_ends_walk_sample :
    main sampleEnv 1000 (fun _ _ => .ok []) (0 + 1)
      = .reported
          { totalToots := 0, totalBoosts := 0, totalCombined := 0,
            topToots := [], topBoosts := [], topCombined := [] }
          [Walker.init.request] :=
  (empty_page_ends_walk (fun _ _ => .ok []) (1000 + cutoffOffset 24)).2.2
    sampleEnv 1000 24 0 rfl rfl

/-- C12: under a valid configuration, when the walk has gone round `n` times
and the next request, the one of number `n + 1`, fails, the run ends as a
failure of the fetch, with that request as the last one sent, and prints no
report, whatever the earlier pages held; and a run under a valid configuration
ends as a failure only in this way, the last request sent being one that the
timeline failed. -/
theorem fetch_failure_aborts (src : TimelineSource) (env : Env) (now cutoffHours cutoff : Int)
    (hcfg : configure env now = .ok (cutoffHours, cutoff)) :
    (∀ (n fuel : Nat) (w : Walker) (err : String),
        walk src cutoff n Walker.init = .running w →
        src w.requests.length w.request = .error err →
        main env now src (n + (fuel + 1)) = .failed (.fetch err) (w.requests ++ [w.request])
        ∧ (main env now src (n + (fuel + 1))).report? = none
        ∧ w.requests.length = n)
    ∧ (∀ (fuel : Nat) (f : Failure) (requests : List Pagination),
        main env now src fuel = .failed f requests →
        ∃ (err : String) (k : Nat) (pg : Pagination),
          f = .fetch err ∧ requests[k]? = some pg ∧ src k pg = .error err
          ∧ requests.length = k + 1) := by
  constructor
  · intro n fuel w err hrun hsrc
    have hmain : main env now src (n + (fuel + 1))
        = .failed (.fetch err) (w.requests ++ [w.request]) := by
      rw [main_of_configure env now src _ cutoffHours cutoff hcfg,
        walk_running_add src cutoff n (fuel + 1) Walker.init w hrun,
        walk_of_fatal src cutoff fuel w _ err (iteration_error src cutoff w err hsrc)]
    refine ⟨hmain, ?_, ?_⟩
    · rw [hmain]
      rfl
    · have hlen : ∀ (n : Nat) (w0 w : Walker), walk src cutoff n w0 = .running w →
          w.requests.length = w0.requests.length + n := by
        intro n
        induction n with
        | zero =>
          intro w0 w h
          simp only [walk, Outcome.running.injEq] at h
          subst h
          rfl
        | succ n ih =>
          intro w0 w h
          have hreq := iteration_requests src cutoff w0
          cases hit : iteration src cutoff w0 with
          | next w1 =>
            rw [walk_of_next src cutoff n w0 w1 hit] at h
            rw [hit] at hreq
            simp only [Step.state] at hreq
            rw [ih w1 w h, hreq]
            simp
            omega
          | leave w1 =>
            rw [walk_of_leave src cutoff n w0 w1 hit] at h
            exact absurd h (by simp)
          | fatal w1 e =>
            rw [walk_of_fatal src cutoff n w0 w1 e hit] at h
            exact absurd h (by simp)
      simpa [Walker.init] using hlen n Walker.init w hrun
  · intro fuel f requests hmain
    rw [main_of_configure env now src _ cutoffHours cutoff hcfg] at hmain
    cases hw : walk src cutoff fuel Walker.init with
    | finished w => rw [hw] at hmain; exact absurd hmain (by simp)
    | running w => rw [hw] at hmain; exact absurd hmain (by simp)
    | fatal w err =>
      rw [hw] at hmain
      simp only [RunResult.failed.injEq] at hmain
      obtain ⟨hf, hreq⟩ := hmain
      obtain ⟨k, pg, h1, h2, h3⟩ := walk_fatal_inv src cutoff fuel Walker.init w err hw
      subst hreq
      exact ⟨err, k, pg, hf.symm, h1, h2, h3⟩

/-- C12, at a sample: `sampleFailing` fails on its second request; the run
under the sample configuration, started at instant 90 so that the first page
lies after the cutoff, ends as a failure with two requests sent. -/
theorem fetch_failure_aborts_sample :
    main sampleEnv 90 sampleFailing (1 + (0 + 1))
        = .failed (.fetch "503")
            ([Walker.init.request] ++ [{ MaxID := "108", SinceID := "", MinID := "", Limit := 40 }])
    ∧ (main sampleEnv 90 sampleFailing (1 + (0 + 1))).report? = none :=
  (fun h => ⟨h.1, h.2.1⟩)
    ((fetch_failure_aborts sampleFailing sampleEnv 90 24 (90 + cutoffOffset 24) rfl).1 1 0
      { (Walker.init.afterPage (90 + cutoffOffset 24) [samplePostA, samplePostB]) with
          maxID := "108", pageNum := 2 } "503"
      (by
        rw [walk_of_next sampleFailing (90 + cutoffOffset 24) 0 Walker.init _
          (iteration_fresh sampleFailing (90 + cutoffOffset 24) Walker.init
            [samplePostA, samplePostB] rfl (List.cons_ne_nil _ _)
            (by
              intro s hs
              simp only [List.mem_cons, List.mem_singleton, List.not_mem_nil, or_false] at hs
              rcases hs with rfl | rfl <;> decide))]
        rfl)
      rfl)

theorem walk_running_of_fresh (src : TimelineSource) (cutoff : Int)
    (hsrc : ∀ (k : Nat) (pg : Pagination),
      ∃ page, src k pg = .ok page ∧ page ≠ [] ∧ ∀ s ∈ page, cutoff ≤ s.CreatedAt)
    (fuel : Nat) (w : Walker) :
    ∃ w1 : Walker, walk src cutoff fuel w = .running w1
      ∧ w1.requests.length = w.requests.length + fuel := by
  induction fuel generalizing w with
  | zero => exact ⟨w, rfl, rfl⟩
  | succ fuel ih =>
    obtain ⟨page, hpage, hne, hall⟩ := hsrc w.requests.length w.request
    have hit := iteration_fresh src cutoff w page hpage hne hall
    obtain ⟨w1, hw1, hlen⟩ := ih
      { w.afterPage cutoff page with maxID := (page.getLast hne).ID, pageNum := w.pageNum + 1 }
    refine ⟨w1, ?_, ?_⟩
    · rw [walk_of_next src cutoff fuel w _ hit]
      exact hw1
    · rw [hlen]
      simp only [Walker.afterPage, List.length_append, List.length_singleton]
      omega

theorem iteration_of_stops (src : TimelineSource) (cutoff : Int) (w : Walker)
    (h : stops cutoff (src w.requests.length w.request) = true) :
    ∃ w1 : Walker, w1.requests = w.requests ++ [w.request]
      ∧ (iteration src cutoff w = .leave w1 ∨ ∃ err, iteration src cutoff w = .fatal w1 err) := by
  rcases iteration_cases src cutoff w with ⟨e, _, hit⟩ | ⟨page, _, _, hit⟩
    | ⟨page, hne, hsrc, hall, _⟩
  · exact ⟨_, rfl, Or.inr ⟨e, hit⟩⟩
  · exact ⟨_, rfl, Or.inl hit⟩
  · rw [hsrc] at h
    simp only [stops, Bool.or_eq_true, List.isEmpty_iff] at h
    rcases h with h | h
    · exact absurd h hne
    · obtain ⟨s, hs, hlt⟩ := (any_old_iff cutoff page).1 h
      have := hall s hs
      omega

/-- C13 fails: on the timeline `sampleEndless`, whose every page is one post
after the cutoff 76, no number of iterations brings the loop to an end, and
after `fuel` iterations `fuel` requests have been sent. -/
theorem walk_endless :
    (¬ ∃ (fuel : Nat) (w : Walker),
        walk sampleEndless 76 fuel Walker.init = .finished w
        ∨ ∃ err, walk sampleEndless 76 fuel Walker.init = .fatal w err)
    ∧ (∀ fuel : Nat, (walk sampleEndless 76 fuel Walker.init).state.requests.length = fuel) := by
  have hsrc : ∀ (k : Nat) (pg : Pagination),
      ∃ page, sampleEndless k pg = .ok page ∧ page ≠ [] ∧ ∀ s ∈ page, (76 : Int) ≤ s.CreatedAt := by
    intro k pg
    refine ⟨[samplePostA], rfl, List.cons_ne_nil _ _, ?_⟩
    intro s hs
    simp only [List.mem_singleton] at hs
    subst hs
    decide
  constructor
  · rintro ⟨fuel, w, h⟩
    obtain ⟨w1, hw1, -⟩ := walk_running_of_fresh sampleEndless 76 hsrc fuel Walker.init
    rw [hw1] at h
    rcases h with h | ⟨err, h⟩
    · exact absurd h (by simp)
    · exact absurd h (by simp)
  · intro fuel
    obtain ⟨w1, hw1, hlen⟩ := walk_running_of_fresh sampleEndless 76 hsrc fuel Walker.init
    rw [hw1]
    simpa [Outcome.state, Walker.init] using hlen

theorem walk_running_length (src : TimelineSource) (cutoff : Int) (n : Nat) (w0 w : Walker)
    (h : walk src cutoff n w0 = .running w) :
    w.requests.length = w0.requests.length + n := by
  induction n generalizing w0 with
  | zero =>
    simp only [walk, Outcome.running.injEq] at h
    subst h
    rfl
  | succ n ih =>
    have hreq := iteration_requests src cutoff w0
    cases hit : iteration src cutoff w0 with
    | next w1 =>
      rw [walk_of_next src cutoff n w0 w1 hit] at h
      rw [hit] at hreq
      simp only [Step.state] at hreq
      rw [ih w1 h, hreq]
      simp only [List.length_append, List.length_singleton]
      omega
    | leave w1 =>
      rw [walk_of_leave src cutoff n w0 w1 hit] at h
      exact absurd h (by simp)
    | fatal w1 e =>
      rw [walk_of_fatal src cutoff n w0 w1 e hit] at h
      exact absurd h (by simp)

theorem walk_requests_length_le (src : TimelineSource) (cutoff : Int) (fuel : Nat)
    (w : Walker) :
    (walk src cutoff fuel w).state.requests.length ≤ w.requests.length + fuel := by
  induction fuel generalizing w with
  | zero => simp [walk, Outcome.state]
  | succ fuel ih =>
    have hreq := iteration_requests src cutoff w
    cases hit : iteration src cutoff w with
    | next w1 =>
      rw [hit] at hreq
      simp only [Step.state] at hreq
      rw [walk_of_next src cutoff fuel w w1 hit]
      have := ih w1
      rw [hreq] at this
      simp only [List.length_append, List.length_singleton] at this
      omega
    | leave w1 =>
      rw [hit] at hreq
      simp only [Step.state] at hreq
      rw [walk_of_leave src cutoff fuel w w1 hit]
      simp only [Outcome.state, hreq, List.length_append, List.length_singleton]
      omega
    | fatal w1 err =>
      rw [hit] at hreq
      simp only [Step.state] at hreq
      rw [walk_of_fatal src cutoff fuel w w1 err hit]
      simp only [Outcome.state, hreq, List.length_append, List.length_singleton]
      omega

/-- C13, amended: when the request that the walk sends after `N` full rounds,
if the loop is still going round by then, is answered by a failure, an empty
page or a page holding a post before the cutoff, the loop ends within `N + 1`
iterations, having sent at most `N + 1` requests, and stays ended however many
more iterations it is allowed.  The condition bears on the request that the
walk does send, with the cursor it carries, not on every possible request. -/
theorem walk_ends_when_source_stops (src : TimelineSource) (cutoff : Int) (N : Nat)
    (hstop : ∀ w : Walker, walk src cutoff N Walker.init = .running w →
      stops cutoff (src N w.request) = true) :
    ∃ fuel : Nat, fuel ≤ N + 1
      ∧ (∀ w, walk src cutoff fuel Walker.init ≠ .running w)
      ∧ (walk src cutoff fuel Walker.init).state.requests.length ≤ N + 1
      ∧ ∀ more : Nat,
          walk src cutoff (fuel + more) Walker.init = walk src cutoff fuel Walker.init := by
  have hbound := walk_requests_length_le src cutoff
  cases hN : walk src cutoff N Walker.init with
  | running w =>
    have hlen : w.requests.length = N := by
      simpa [Walker.init] using walk_running_length src cutoff N Walker.init w hN
    have hs := hstop w hN
    rw [← hlen] at hs
    have hadd := walk_running_add src cutoff N 1 Walker.init w hN
    obtain ⟨w1, hreq, hit | ⟨err, hit⟩⟩ := iteration_of_stops src cutoff w hs
    · have hend : walk src cutoff (N + 1) Walker.init = .finished w1 := by
        rw [hadd, walk_of_leave src cutoff 0 w w1 hit]
      have hnot : ∀ w2, walk src cutoff (N + 1) Walker.init ≠ .running w2 := by
        intro w2
        rw [hend]
        simp
      refine ⟨N + 1, le_refl _, hnot, ?_,
        fun more => walk_stable src cutoff (N + 1) more Walker.init hnot⟩
      rw [hend]
      simp only [Outcome.state, hreq, List.length_append, List.length_singleton]
      omega
    · have hend : walk src cutoff (N + 1) Walker.init = .fatal w1 err := by
        rw [hadd, walk_of_fatal src cutoff 0 w w1 err hit]
      have hnot : ∀ w2, walk src cutoff (N + 1) Walker.init ≠ .running w2 := by
        intro w2
        rw [hend]
        simp
      refine ⟨N + 1, le_refl _, hnot, ?_,
        fun more => walk_stable src cutoff (N + 1) more Walker.init hnot⟩
      rw [hend]
      simp only [Outcome.state, hreq, List.length_append, List.length_singleton]
      omega
  | finished w =>
    have hnot : ∀ w2, walk src cutoff N Walker.init ≠ .running w2 := by
      intro w2
      rw [hN]
      simp
    refine ⟨N, by omega, hnot, ?_, fun more => walk_stable src cutoff N more Walker.init hnot⟩
    have hinit : Walker.init.requests.length = 0 := rfl
    have := hbound N Walker.init
    omega
  | fatal w err =>
    have hnot : ∀ w2, walk src cutoff N Walker.init ≠ .running w2 := by
      intro w2
      rw [hN]
      simp
    refine ⟨N, by omega, hnot, ?_, fun more => walk_stable src cutoff N more Walker.init hnot⟩
    have hinit : Walker.init.requests.length = 0 := rfl
    have := hbound N Walker.init
    omega

/-- C13 amended, at a sample: `sampleByCursor` answers by the cursor; the walk
with cutoff 76 is still going round after one round, and its second request,
which carries the cursor `109`, is answered by an empty page. -/
theorem walk_ends_when_source_stops_sample :
    (∃ w : Walker, walk sampleByCursor 76 1 Walker.init = .running w)
    ∧ ∃ fuel : Nat, fuel ≤ 1 + 1
      ∧ (∀ w, walk sampleByCursor 76 fuel Walker.init ≠ .running w)
      ∧ (walk sampleByCursor 76 fuel Walker.init).state.requests.length ≤ 1 + 1
      ∧ ∀ more : Nat,
          walk sampleByCursor 76 (fuel + more) Walker.init
            = walk sampleByCursor 76 fuel Walker.init :=
  ⟨⟨_, rfl⟩,
   walk_ends_when_source_stops sampleByCursor 76 1 (by
    intro w h
    have hw : walk sampleByCursor 76 1 Walker.init
        = .running { (Walker.init.afterPage 76 [samplePostA]) with
            maxID := "109", pageNum := 2 } := rfl
    rw [hw] at h
    simp only [Outcome.running.injEq] at h
    subst h
    rfl)⟩

/-! ## The scenario of the specification -/

theorem atoi_24 : Atoi "24" = .ok 24 := rfl

theorem cutoffOffset_24 : cutoffOffset 24 = -86400000000000 := by decide

theorem configure_24 (env : Env) (now : Int)
    (hload : env.loadFailed = false) (hhours : env.MASTODON_CUTOFF_HOURS = "24")
    (hserver : env.MASTODON_SERVER ≠ "") (htoken : env.MASTODON_ACCESS_TOKEN ≠ "") :
    configure env now = .ok (24, now - 86400000000000) := by
  unfold configure
  rw [hload, hhours, atoi_24]
  simp only [Bool.false_eq_true, if_false, cutoffOffset_24, hserver, htoken, or_self]
  rfl

theorem scenario_takeWhile (now : Int) :
    (scenarioPage now).takeWhile (fresh (now - 86400000000000)) = (scenarioPage now).take 3 := by
  simp [scenarioPage, fresh, Status.CreatedAt, Hour, List.takeWhile_cons]

/-- C14: a run at instant `now` with `MASTODON_CUTOFF_HOURS` set to `24`, on a
timeline whose first page is a post by `A`, a reblog by `B` of a post by `A`
and a second post by `A`, all created at `now`, then a post by `C` created 30
hours before.  The cutoff is 24 hours before `now`; the loop is left in the
first iteration at the fourth post, which is not counted; the toot map is
`A: 2`, the boost map `A: 1`; the totals are 2, 1 and 3; and the ranked lists
are `(A, 2)`, nothing, and `(A, 3)`. -/
theorem scenario_report (src : TimelineSource) (env : Env) (now : Int) (fuel : Nat)
    (hload : env.loadFailed = false) (hhours : env.MASTODON_CUTOFF_HOURS = "24")
    (hserver : env.MASTODON_SERVER ≠ "") (htoken : env.MASTODON_ACCESS_TOKEN ≠ "")
    (hpage : src 0 Walker.init.request = .ok (scenarioPage now)) :
    configure env now = .ok (24, now - 24 * Hour)
    ∧ ∃ w : Walker, walk src (now - 24 * Hour) (fuel + 1) Walker.init = .finished w
      ∧ w.forwarded = (scenarioPage now).take 3
      ∧ w.tootCount.entries = [("A", 2)]
      ∧ w.boostCount.entries = [("A", 1)]
      ∧ w.requests = [Walker.init.request]
      ∧ main env now src (fuel + 1)
          = .reported
              { totalToots := 2, totalBoosts := 1, totalCombined := 3,
                topToots := [⟨"A", 2⟩], topBoosts := [], topCombined := [⟨"A", 3⟩] }
              [Walker.init.request] := by
  have hcut : now - 24 * Hour = now - 86400000000000 := by
    simp [Hour]
  have hcfg := configure_24 env now hload hhours hserver htoken
  rw [hcut]
  have hold : ∃ s ∈ scenarioPage now, s.CreatedAt < now - 86400000000000 := by
    refine ⟨.mk "1" (now - 30 * Hour) ⟨"C"⟩ none, by simp [scenarioPage], ?_⟩
    simp only [Status.CreatedAt, Hour]
    omega
  have hit := iteration_old src (now - 86400000000000) Walker.init (scenarioPage now) hpage hold
  have hwalk := walk_of_leave src (now - 86400000000000) fuel Walker.init _ hit
  refine ⟨hcfg, _, hwalk, ?_, ?_, ?_, ?_, ?_⟩
  · simp only [Walker.afterPage, scenario_takeWhile]
    rfl
  · simp only [Walker.afterPage, scenario_takeWhile]
    rfl
  · simp only [Walker.afterPage, scenario_takeWhile]
    rfl
  · rfl
  · rw [main_of_configure env now src _ 24 _ hcfg, hwalk]
    simp only [Walker.afterPage, scenario_takeWhile]
    rfl

/-- C14, at a sample: the scenario under `sampleEnv`, run at instant 1000. -/
theorem scenario_report_sample :
    main sampleEnv 1000 (fun _ _ => .ok (scenarioPage 1000)) (0 + 1)
      = .reported
          { totalToots := 2, totalBoosts := 1, totalCombined := 3,
            topToots := [⟨"A", 2⟩], topBoosts := [], topCombined := [⟨"A", 3⟩] }
          [Walker.init.request] :=
  Exists.elim
    (scenario_report (fun _ _ => .ok (scenarioPage 1000)) sampleEnv 1000 0 rfl rfl
      (by decide) (by decide) rfl).2
    (fun _ h => h.2.2.2.2.2)

/-! ## Configuration (lines 35-52) -/

/-- C15: when the server is empty, or the access token is empty, or
`MASTODON_CUTOFF_HOURS` is not accepted by `strconv.Atoi`, or is a number of 0
or less, the run ends as a failure of the configuration, whatever the timeline
and the number of iterations allowed: no request is sent and no report is
printed. -/
theorem config_error_before_fetch (env : Env) (now : Int) (src : TimelineSource) (fuel : Nat)
    (h : env.MASTODON_SERVER = "" ∨ env.MASTODON_ACCESS_TOKEN = ""
      ∨ (∃ e, Atoi env.MASTODON_CUTOFF_HOURS = .error e)
      ∨ (∃ n, Atoi env.MASTODON_CUTOFF_HOURS = .ok n ∧ n ≤ 0)) :
    ∃ f : Failure, main env now src fuel = .failed f []
      ∧ f.isConfig = true
      ∧ (main env now src fuel).requests = []
      ∧ (main env now src fuel).report? = none := by
  have key : ∃ f : Failure, configure env now = .error f ∧ f.isConfig = true := by
    unfold configure
    by_cases hl : env.loadFailed = true
    · exact ⟨.envFile, by simp [hl], rfl⟩
    · simp only [hl, Bool.false_eq_true, if_false]
      cases ha : Atoi env.MASTODON_CUTOFF_HOURS with
      | error e => exact ⟨.cutoffHours env.MASTODON_CUTOFF_HOURS, rfl, rfl⟩
      | ok n =>
        by_cases hn : n ≤ 0
        · exact ⟨.cutoffHours env.MASTODON_CUTOFF_HOURS, by simp [hn], rfl⟩
        · simp only [hn, if_false]
          rcases h with h | h | ⟨e, h⟩ | ⟨m, h, hm⟩
          · exact ⟨.credentials, by simp [h], rfl⟩
          · exact ⟨.credentials, by simp [h], rfl⟩
          · rw [ha] at h
            exact absurd h (by simp)
          · rw [ha] at h
            simp only [Except.ok.injEq] at h
            subst h
            exact absurd hm hn
  obtain ⟨f, hf, hc⟩ := key
  have hmain : main env now src fuel = .failed f [] := by
    simp only [main, hf]
  refine ⟨f, hmain, hc, ?_, ?_⟩
  · rw [hmain]; rfl
  · rw [hmain]; rfl

/-- C15, at a sample: `MASTODON_CUTOFF_HOURS` set to `0`, on a timeline that
would answer every request. -/
theorem config_error_before_fetch_sample :
    ∃ f : Failure,
      main { sampleEnv with MASTODON_CUTOFF_HOURS := "0" } 1000 sampleSource 5 = .failed f []
      ∧ f.isConfig = true
      ∧ (main { sampleEnv with MASTODON_CUTOFF_HOURS := "0" } 1000 sampleSource 5).requests = []
      ∧ (main { sampleEnv with MASTODON_CUTOFF_HOURS := "0" } 1000 sampleSource 5).report?
          = none :=
  config_error_before_fetch { sampleEnv with MASTODON_CUTOFF_HOURS := "0" } 1000 sampleSource 5
    (Or.inr (Or.inr (Or.inr ⟨0, rfl, le_refl 0⟩)))

/-! ## The combined tally against the base tallies -/

theorem total_add (m : GoMap) (k : String) (c : Int) : (m.add k c).total = m.total + c := by
  unfold GoMap.add
  rw [GoMap.total_set]
  ring

theorem foldl_add_total (es : List (String × Int)) (c : GoMap) :
    (es.foldl (fun c e => c.add e.1 e.2) c).total = c.total + (es.map Prod.snd).sum := by
  induction es generalizing c with
  | nil => simp
  | cons e es ih =>
    rw [List.foldl_cons, ih, total_add]
    simp only [List.map_cons, List.sum_cons]
    ring

/-- C16: for any two maps, the values of the combined map of lines 132-139 add
up to the `totalCombined` that line 119 prints. -/
theorem combined_total (tootCount boostCount : GoMap) :
    (combine tootCount boostCount).total = (report tootCount boostCount).totalCombined := by
  unfold combine
  rw [foldl_add_total, foldl_add_total, GoMap.total_empty]
  show _ = tootCount.total + boostCount.total
  rw [GoMap.total_eq_sum, GoMap.total_eq_sum]
  ring

theorem combine_get (tootCount boostCount : GoMap) (h : String) :
    (combine tootCount boostCount).get h = tootCount.get h + boostCount.get h := by
  unfold combine
  rw [foldl_add_get _ boostCount.nodup, foldl_add_get _ tootCount.nodup]
  simp [GoMap.get, GoMap.lookup, GoMap.empty]

theorem mem_of_lookup (es : List (String × Int)) (k : String) (v : Int)
    (h : es.lookup k = some v) : (k, v) ∈ es := by
  induction es with
  | nil => simp at h
  | cons e es ih =>
    obtain ⟨a, b⟩ := e
    by_cases hka : k = a
    · subst hka
      simp only [List.lookup_cons, beq_self_eq_true, Option.some.injEq] at h
      subst h
      exact List.mem_cons_self _ _
    · have hne : (k == a) = false := by simpa using hka
      simp only [List.lookup_cons, hne] at h
      exact List.mem_cons_of_mem _ (ih h)

theorem get_nonneg (m : GoMap) (hm : ∀ e ∈ m.entries, 0 ≤ e.2) (h : String) : 0 ≤ m.get h := by
  unfold GoMap.get GoMap.lookup
  cases hl : m.entries.lookup h with
  | none => exact le_refl 0
  | some v => exact hm (h, v) (mem_of_lookup m.entries h v hl)

theorem mem_sorted_of_get (m : GoMap) (h : String) (hgt : 1 < m.get h) :
    countEntry.mk h (m.get h) ∈ sortByCountDescending m := by
  rw [mem_sortByCountDescending]
  refine ⟨?_, hgt⟩
  have hl : m.entries.lookup h = some (m.get h) := by
    unfold GoMap.get GoMap.lookup at hgt ⊢
    cases hl : m.entries.lookup h with
    | none =>
      rw [hl] at hgt
      simp only at hgt
      omega
    | some v => rfl
  exact mem_of_lookup m.entries h (m.get h) hl

/-- C17: for two maps without a negative count, every entry of the ranked list
of either map has its handle in the ranked list of the combined map, with the
sum of the two counts of the handle, which is at least the count of the
entry. -/
theorem ranked_base_in_combined (tootCount boostCount : GoMap)
    (ht : ∀ e ∈ tootCount.entries, 0 ≤ e.2) (hb : ∀ e ∈ boostCount.entries, 0 ≤ e.2)
    (e : countEntry)
    (he : e ∈ sortByCountDescending tootCount ∨ e ∈ sortByCountDescending boostCount) :
    ∃ c ∈ sortByCountDescending (combine tootCount boostCount),
      c.Acct = e.Acct ∧ e.Count ≤ c.Count
      ∧ c.Count = tootCount.get e.Acct + boostCount.get e.Acct := by
  have hsum := combine_get tootCount boostCount e.Acct
  have h1 := get_nonneg tootCount ht e.Acct
  have h2 := get_nonneg boostCount hb e.Acct
  have hle : e.Count ≤ tootCount.get e.Acct + boostCount.get e.Acct ∧ 1 < e.Count := by
    rcases he with he | he
    · obtain ⟨hmem, hgt⟩ := (mem_sortByCountDescending tootCount e).1 he
      have := get_of_lookup tootCount e.Acct e.Count
        (lookup_of_mem tootCount.entries tootCount.nodup e.Acct e.Count hmem)
      exact ⟨by omega, hgt⟩
    · obtain ⟨hmem, hgt⟩ := (mem_sortByCountDescending boostCount e).1 he
      have := get_of_lookup boostCount e.Acct e.Count
        (lookup_of_mem boostCount.entries boostCount.nodup e.Acct e.Count hmem)
      exact ⟨by omega, hgt⟩
  refine ⟨countEntry.mk e.Acct ((combine tootCount boostCount).get e.Acct),
    mem_sorted_of_get _ _ (by rw [hsum]; omega), rfl, ?_, hsum⟩
  show e.Count ≤ (combine tootCount boostCount).get e.Acct
  rw [hsum]
  exact hle.1

/-- C17, at a sample: the entry `(A, 2)` of the ranked list of `sampleToots`,
against `sampleBoosts`. -/
theorem ranked_base_in_combined_sample :
    ∃ c ∈ sortByCountDescending (combine sampleToots sampleBoosts),
      c.Acct = "A" ∧ (2 : Int) ≤ c.Count
      ∧ c.Count = sampleToots.get "A" + sampleBoosts.get "A" :=
  ranked_base_in_combined sampleToots sampleBoosts (by decide) (by decide) ⟨"A", 2⟩
    (Or.inl (by decide))

/-! ## The cutoff offset of line 48 -/

theorem cutoffOffset_exact (h : Int) (h0 : 0 < h) (h1 : h ≤ 2562047) :
    cutoffOffset h = -(h * 3600 * 10 ^ 9) ∧ cutoffOffset h < 0 := by
  have e : cutoffOffset h = -(h * 3600000000000) := by
    unfold cutoffOffset wrapInt64 Hour
    norm_num
    omega
  constructor
  · rw [e]; ring
  · rw [e]; omega

theorem cutoffOffset_range (h : Int) :
    -9223372036854775808 ≤ cutoffOffset h ∧ cutoffOffset h ≤ 9223372036854775807 := by
  unfold cutoffOffset wrapInt64
  norm_num
  omega

theorem cutoffOffset_inexact (h : Int) (h1 : 2562047 < h) :
    cutoffOffset h ≠ -(h * 3600 * 10 ^ 9) := by
  have hr := (cutoffOffset_range h).1
  intro e
  rw [e] at hr
  norm_num at hr
  omega

/-- C18 fails at `MASTODON_CUTOFF_HOURS=2562048`: `strconv.Atoi` returns
2562048, which line 45 accepts, and the product of line 48 wraps to
9223371273709551616 nanoseconds, which is above 0 and is not
`-2562048 * 3600 * 10^9`; the cutoff then lies after the current time, and a
run on the page of the scenario counts no post at all. -/
theorem cutoff_offset_wraps :
    Atoi "2562048" = .ok 2562048
    ∧ cutoffOffset 2562048 = 9223371273709551616
    ∧ cutoffOffset 2562048 ≠ -(2562048 * 3600 * 10 ^ 9)
    ∧ configure { sampleEnv with MASTODON_CUTOFF_HOURS := "2562048" } 1000
        = .ok (2562048, 1000 + 9223371273709551616)
    ∧ main { sampleEnv with MASTODON_CUTOFF_HOURS := "2562048" } 1000
          (fun _ _ => .ok (scenarioPage 1000)) 1
        = .reported
            { totalToots := 0, totalBoosts := 0, totalCombined := 0,
              topToots := [], topBoosts := [], topCombined := [] }
            [Walker.init.request] := by
  refine ⟨rfl, by decide, by decide, rfl, rfl⟩

end MastodonHomeCounts
